import Mathlib

/-!
# cheali-charger: calibration math and the cell balancer

A shallow embedding of `src/core/AnalogInputs.cpp` and
`src/core/strategy/Balancer.cpp`.

Conventions of the embedding:

* `uint16_t` / `ValueType` values are natural numbers; every store into a
  16-bit location is written with an explicit `% 65536` where the C code can
  leave the range.
* `int32_t` values are integers; every `int32_t` operation is followed by
  `wrapInt32`, the two's-complement wrap the compiled code performs.
* `int8_t` / `uint8_t` conversions are `toInt8` / `toUInt8`.
* A division whose divisor is zero has no defined result: the function
  returns `none`.
* Tables (`real_`, `stableCount_`, `Von_`, `Voff_`, the EEPROM calibration
  table) are total functions of the index; an index past the declared size
  reads whatever the function holds there.
* Constants, enumerators and helpers that live in headers outside the two
  source files are fields of `Config`.
-/

namespace Cheali

/-! ## Machine integers -/

/-- Largest `uint16_t`. -/
def UINT16_MAX : Nat := 65535

/-- Two's-complement reduction of an integer to the `int32_t` range. -/
def wrapInt32 (z : Int) : Int := (z + 2147483648) % 4294967296 - 2147483648

/-- Conversion to `uint8_t`. -/
def toUInt8 (z : Int) : Nat := (z % 256).toNat

/-- Conversion of a `uint8_t` value to `int8_t`. -/
def toInt8 (n : Nat) : Int := if n % 256 < 128 then ((n % 256 : Nat) : Int) else ((n % 256 : Nat) : Int) - 256

/-- Modelled from the spec: `absDiff` of `Utils.h`, the absolute difference of
two unsigned values ("if the absolute difference is within a fixed error
band"). -/
def absDiff (a b : Nat) : Nat := if a > b then a - b else b - a

/-- Sum of two `uint16_t` values, stored in 16 bits. -/
def addU16 (a b : Nat) : Nat := (a + b) % 65536

/-- Difference `a - b` of two `uint16_t` values, stored in 16 bits. -/
def subU16 (a b : Nat) : Nat := (a + 65536 - b % 65536) % 65536

/-- The test `mask & (1 << i)` of the C code, as a Boolean. -/
def bitSet (mask i : Nat) : Bool := (mask &&& (1 <<< i)) != 0

/-! ## Build-time configuration -/

/-- Enumerators of `enum AnalogInputs::Name` used by the two source files
(their numeric values come from a header that is not part of the sources). -/
structure Names where
  Vout_plus_pin : Nat
  Vout_minus_pin : Nat
  Ismps : Nat
  Idischarge : Nat
  IsmpsSet : Nat
  IdischargeSet : Nat
  Tintern : Nat
  Textern : Nat
  Vb0_pin : Nat
  Vb1_pin : Nat
  Vb2_pin : Nat
  Vout : Nat
  Vbalancer : Nat
  VoutBalancer : Nat
  VbalanceInfo : Nat
  VobInfo : Nat
  Iout : Nat
  Pout : Nat
  Cout : Nat
  Eout : Nat
  Vb1 : Nat
  Vb2 : Nat
  deltaVout : Nat
  deltaVoutMax : Nat
  deltaTextern : Nat
  deltaLastCount : Nat

/-- Constants defined in headers outside the two source files. -/
structure Config where
  names : Names
  MAX_BANANCE_CELLS : Nat
  ANALOG_INPUTS_PHYSICAL_INPUTS : Nat
  ANALOG_INPUTS_ALL_INPUTS : Nat
  ANALOG_INPUTS_MAX_CALIBRATION_POINTS : Nat
  ANALOG_INPUTS_STABLE_MIN_COUNT : Nat
  ANALOG_INPUTS_STABLE_VALUE_ERROR : Nat
  ANALOG_INPUTS_CONNECTED_MIN_VOLTAGE : Nat
  ANALOG_INPUTS_ADC_ROUND_MAX_COUNT : Nat
  ANALOG_INPUTS_ADC_BURST_COUNT : Nat
  ANALOG_INPUTS_ADC_DELTA_SHIFT : Nat
  /-- Constant `Balancer::balancerStartStableCount`. -/
  balancerStartStableCount : Nat
  /-- Constant `Balancer::maxBalanceTime`, in seconds. -/
  maxBalanceTime : Nat
  /-- Default argument of `Balancer::isStable`. -/
  balancerIsStableDefault : Nat
  /-- Whether `ENABLE_SIMPLIFIED_VB0_VB2_CIRCUIT` is defined. -/
  ENABLE_SIMPLIFIED_VB0_VB2_CIRCUIT : Bool
  /-- Value of the constant expression `ANALOG_VOLT(3.000)`. -/
  ANALOG_VOLT_3 : Nat
  TIMER_INTERRUPT_PERIOD_MICROSECONDS : Nat
  TIMER_SLOW_INTERRUPT_INTERVAL : Nat

/-! ## Calibration (AnalogInputs.cpp) -/

/-- One point `(raw, calibrated)` of a channel's calibration line
(`struct CalibrationPoint`, two `uint16_t` members). -/
structure CalibrationPoint where
  x : Nat
  y : Nat
deriving DecidableEq, Repr

/-- Both members of a calibration point fit their 16-bit storage. -/
def CalibrationPoint.WF (p : CalibrationPoint) : Prop := p.x ≤ 65535 ∧ p.y ≤ 65535

/-- The EEPROM table `eeprom::data.calibration[name].p[i]`. -/
abbrev CalibrationTable := Nat → Nat → CalibrationPoint

/-- Every stored point of the table fits its 16-bit storage. -/
def CalibrationTable.WF (cal : CalibrationTable) : Prop := ∀ name i, (cal name i).WF

namespace AnalogInputs

/-- `AnalogInputs::getCalibrationPoint` (with `REDUNDANT_CHECK` compiled in). -/
def getCalibrationPoint (cfg : Config) (cal : CalibrationTable) (name i : Nat) : CalibrationPoint :=
  if name ≥ cfg.ANALOG_INPUTS_PHYSICAL_INPUTS ∨ i ≥ cfg.ANALOG_INPUTS_MAX_CALIBRATION_POINTS then
    { x := 1, y := 1 }
  else
    cal name i

/-- `AnalogInputs::calibrateValue`. -/
def calibrateValue (cfg : Config) (cal : CalibrationTable) (name x : Nat) : Option Nat :=
  if x = 0 then some 0 else
  let p0 := getCalibrationPoint cfg cal name 0
  let p1 := getCalibrationPoint cfg cal name 1
  let y : Int := wrapInt32 (p1.y : Int)
  let y : Int := wrapInt32 (y - (p0.y : Int))
  let a : Int := wrapInt32 (x : Int)
  let a : Int := wrapInt32 (a - (p0.x : Int))
  let y : Int := wrapInt32 (y * a)
  let a : Int := wrapInt32 (p1.x : Int)
  let a : Int := wrapInt32 (a - (p0.x : Int))
  if a = 0 then none else
  let y : Int := wrapInt32 (Int.tdiv y a)
  let y : Int := wrapInt32 (y + (p0.y : Int))
  let y : Int := if y < 0 then 0 else y
  let y : Int := if y > (UINT16_MAX : Int) then (UINT16_MAX : Int) else y
  some (y % 65536).toNat

/-- `AnalogInputs::reverseCalibrateValue`. -/
def reverseCalibrateValue (cfg : Config) (cal : CalibrationTable) (name y : Nat) : Option Nat :=
  if y = 0 then some 0 else
  let p0 := getCalibrationPoint cfg cal name 0
  let p1 := getCalibrationPoint cfg cal name 1
  let x : Int := wrapInt32 (p1.x : Int)
  let x : Int := wrapInt32 (x - (p0.x : Int))
  let a : Int := wrapInt32 (y : Int)
  let a : Int := wrapInt32 (a - (p0.y : Int))
  let x : Int := wrapInt32 (x * a)
  let a : Int := wrapInt32 (p1.y : Int)
  let a : Int := wrapInt32 (a - (p0.y : Int))
  if a = 0 then none else
  let x : Int := wrapInt32 (Int.tdiv x a)
  let x : Int := wrapInt32 (x + (p0.x : Int))
  let x : Int := if x < 0 then 0 else x
  let x : Int := if x > (UINT16_MAX : Int) then (UINT16_MAX : Int) else x
  some (x % 65536).toNat

/-- The interpolation of the specification, over the unbounded integers:
`clamp(p0.y + ((x - p0.x) * (p1.y - p0.y)) / (p1.x - p0.x), 0, 65535)` with
exact product and truncating division. -/
def calibrateExact (p0 p1 : CalibrationPoint) (x : Nat) : Int :=
  let y : Int := (p0.y : Int) + Int.tdiv (((x : Int) - p0.x) * ((p1.y : Int) - p0.y)) ((p1.x : Int) - p0.x)
  max 0 (min y 65535)

end AnalogInputs

/-! ## State -/

/-- The variables of `namespace AnalogInputs`. -/
structure AnalogInputs.State where
  on_ : Bool
  onTintern_ : Bool
  ignoreLastResult_ : Bool
  i_avrCount_ : Nat
  i_avrSum_ : Nat → Nat
  i_adc_ : Nat → Nat
  avrAdc_ : Nat → Nat
  real_ : Nat → Nat
  stableCount_ : Nat → Nat
  calculationCount_ : Nat
  i_deltaAvrCount_ : Nat
  i_deltaAvrSumVoutPlus_ : Nat
  i_deltaAvrSumVoutMinus_ : Nat
  i_deltaAvrSumTextern_ : Nat
  deltaCount_ : Nat
  deltaLastT_ : Nat
  deltaStartTimeU16_ : Nat
  enable_deltaVoutMax_ : Bool
  i_charge_ : Nat
  i_Eout_ : Nat
  i_Eout_dt_ : Nat

/-- The variables of `namespace Balancer`, the measurement engine, and the
collaborators the balancer reads or drives: the seconds clock
(`Time::getSecondsU16`), the battery profile (`ProgramData::battery`) and the
hardware outputs. `balancerMasks` records the arguments of the
`hardware::setBalancer` calls, most recent first. -/
structure World where
  ai : AnalogInputs.State
  connectedCells : Nat
  minCell : Int
  balance : Nat
  Von_ : Nat → Nat
  Voff_ : Nat → Nat
  startBalanceTimeSecondsU16_ : Nat
  balancingEnded : Nat
  done : Bool
  savedVon : Bool
  secondsU16 : Nat
  Vd_per_cell : Nat
  balancerError : Nat
  balancerOutput : Bool
  balancerMasks : List Nat

/-- What the measurement engine reads from its collaborators: the EEPROM
calibration table, the millisecond clock (`Time::getMilisecondsU16`) and the
power state of the discharger and of the switching supply
(`Discharger::isPowerOn`, `SMPS::isPowerOn`). -/
structure AnalogInputs.Env where
  cal : CalibrationTable
  milisecondsU16 : Nat
  dischargerOn : Bool
  smpsOn : Bool

/-- Array store `f[i] = v`. -/
def setAt (f : Nat → Nat) (i v : Nat) : Nat → Nat := fun j => if j = i then v else f j

/-- Result of a strategy step (`enum Strategy::statusType`). -/
inductive statusType where
  | RUNNING
  | COMPLETE
deriving DecidableEq, Repr

/-- Channel kinds (`enum AnalogInputs::Type`). -/
inductive AnalogInputs.Type_ where
  | Current
  | Voltage
  | Temperature
  | Power
  | Work
deriving DecidableEq, Repr

/-- Modelled from the spec: `Time::diffU16(start, now)`, the elapsed time between
two readings of a 16-bit counter ("elapsed-time comparisons against monotonic
counters with defined wraparound-safe subtraction"). -/
def Time.diffU16 (start now : Nat) : Nat := subU16 now start

namespace hardware

/-- `hardware::setBalancerOutput`. -/
def setBalancerOutput (w : World) (b : Bool) : World := { w with balancerOutput := b }

/-- `hardware::setBalancer`. -/
def setBalancer (w : World) (v : Nat) : World := { w with balancerMasks := v :: w.balancerMasks }

end hardware

/-! ## Measurement engine accessors (AnalogInputs.cpp) -/

namespace AnalogInputs

/-- `AnalogInputs::getRealValue`. -/
def getRealValue (s : State) (name : Nat) : Nat := s.real_ name

/-- Whether the index `name` lies inside the array
`real_[ANALOG_INPUTS_ALL_INPUTS]` that `getRealValue` reads. -/
def realInBounds (cfg : Config) (name : Nat) : Bool :=
  decide (name < cfg.ANALOG_INPUTS_ALL_INPUTS)

/-- `AnalogInputs::isPowerOn`. -/
def isPowerOn (s : State) : Bool := s.on_

/-- `AnalogInputs::getFullMeasurementCount`. -/
def getFullMeasurementCount (s : State) : Nat := s.calculationCount_

/-- `AnalogInputs::getStableCount`. -/
def getStableCount (s : State) (name : Nat) : Nat := s.stableCount_ name

/-- `AnalogInputs::isStable`. -/
def isStable (cfg : Config) (s : State) (name : Nat) : Bool :=
  decide (getStableCount s name ≥ cfg.ANALOG_INPUTS_STABLE_MIN_COUNT)

/-- `AnalogInputs::resetStable`: `ANALOG_INPUTS_FOR_ALL` visits every channel
below `ANALOG_INPUTS_ALL_INPUTS`. -/
def resetStable (cfg : Config) (s : State) : State :=
  { s with stableCount_ := fun name =>
      if name < cfg.ANALOG_INPUTS_ALL_INPUTS then 0 else s.stableCount_ name }

/-- `AnalogInputs::getType`. -/
def getType (cfg : Config) (name : Nat) : Type_ :=
  if name = cfg.names.Iout ∨ name = cfg.names.Ismps ∨ name = cfg.names.IsmpsSet ∨
      name = cfg.names.Idischarge ∨ name = cfg.names.IdischargeSet then Type_.Current
  else if name = cfg.names.Tintern ∨ name = cfg.names.Textern then Type_.Temperature
  else if name = cfg.names.Pout then Type_.Power
  else if name = cfg.names.Eout then Type_.Work
  else Type_.Voltage

/-- `AnalogInputs::isConnected`. -/
def isConnected (cfg : Config) (s : State) (name : Nat) : Bool :=
  if name = cfg.names.Vbalancer then
    decide (getRealValue s cfg.names.VobInfo = cfg.names.Vbalancer)
  else if getType cfg name = Type_.Voltage then
    decide (getRealValue s name > cfg.ANALOG_INPUTS_CONNECTED_MIN_VOLTAGE)
  else true

/-- One iteration of the loop of `getConnectedBalancePorts`; the loop state is
`(ports, port)`. -/
def getConnectedBalancePortsStep (cfg : Config) (s : State) (st : Nat × Nat) (i : Nat) :
    Nat × Nat :=
  let ports := if isConnected cfg s (cfg.names.Vb1 + i) then st.1 ||| st.2 else st.1
  (ports, (st.2 <<< 1) % 65536)

/-- `AnalogInputs::getConnectedBalancePorts`. -/
def getConnectedBalancePorts (cfg : Config) (s : State) : Nat :=
  ((List.range cfg.MAX_BANANCE_CELLS).foldl (getConnectedBalancePortsStep cfg s) (0, 1)).1

/-- `ANALOG_INPUTS_E_OUT_dt_FACTOR`. -/
def ANALOG_INPUTS_E_OUT_dt_FACTOR : Nat := 50

/-- `ANALOG_INPUTS_E_OUT_DIVIDER`. -/
def ANALOG_INPUTS_E_OUT_DIVIDER : Nat := 100

/-- `ANALOG_INPUTS_DELTA_TIME_MILISECONDS`, which the source requires to be
30000. -/
def ANALOG_INPUTS_DELTA_TIME_MILISECONDS : Nat := 30000

/-- `ANALOG_INPUTS_ADC_MEASUREMENTS_COUNT`. -/
def ANALOG_INPUTS_ADC_MEASUREMENTS_COUNT (cfg : Config) : Nat :=
  cfg.ANALOG_INPUTS_ADC_ROUND_MAX_COUNT * cfg.ANALOG_INPUTS_ADC_BURST_COUNT

/-- `AnalogInputs::getVout`. -/
def getVout (cfg : Config) (s : State) : Nat := getRealValue s cfg.names.Vout

/-- `AnalogInputs::getIout`. -/
def getIout (cfg : Config) (s : State) : Nat := getRealValue s cfg.names.Iout

/-- `AnalogInputs::setReal`; the stable count is a `uint16_t`. -/
def setReal (cfg : Config) (s : State) (name real : Nat) : State :=
  let s :=
    if absDiff (s.real_ name) real > cfg.ANALOG_INPUTS_STABLE_VALUE_ERROR then
      { s with stableCount_ := setAt s.stableCount_ name 0 }
    else
      { s with stableCount_ := setAt s.stableCount_ name ((s.stableCount_ name + 1) % 65536) }
  { s with real_ := setAt s.real_ name real }

/-- `AnalogInputs::_resetAvr`: `ANALOG_INPUTS_FOR_ALL_PHY` visits every channel
below `ANALOG_INPUTS_PHYSICAL_INPUTS`. -/
def _resetAvr (cfg : Config) (s : State) : State :=
  { s with
    i_avrSum_ := fun name =>
      if name < cfg.ANALOG_INPUTS_PHYSICAL_INPUTS then 0 else s.i_avrSum_ name,
    i_avrCount_ := cfg.ANALOG_INPUTS_ADC_ROUND_MAX_COUNT,
    ignoreLastResult_ := false }

/-- `AnalogInputs::_resetDeltaAvr`. -/
def _resetDeltaAvr (env : Env) (s : State) : State :=
  { s with
    i_deltaAvrCount_ := 0, i_deltaAvrSumVoutPlus_ := 0, i_deltaAvrSumVoutMinus_ := 0,
    i_deltaAvrSumTextern_ := 0, deltaStartTimeU16_ := env.milisecondsU16 }

/-- `AnalogInputs::resetDelta`. -/
def resetDelta (env : Env) (s : State) : State :=
  let s := _resetDeltaAvr env s
  { s with deltaCount_ := 0, deltaLastT_ := 0 }

/-- `AnalogInputs::resetMeasurement`. -/
def resetMeasurement (cfg : Config) (s : State) : State :=
  let s := { s with i_avrCount_ := 1 }
  let s := { s with ignoreLastResult_ := true }
  resetStable cfg s

/-- `AnalogInputs::resetAccumulatedMeasurements`. -/
def resetAccumulatedMeasurements (cfg : Config) (env : Env) (s : State) : State :=
  let s := { s with i_charge_ := 0, i_Eout_ := 0, i_Eout_dt_ := ANALOG_INPUTS_E_OUT_dt_FACTOR }
  let s := resetMeasurement cfg s
  let s := resetDelta env s
  let s := setReal cfg s cfg.names.Cout 0
  let s := setReal cfg s cfg.names.deltaVout 0
  let s := setReal cfg s cfg.names.deltaVoutMax 0
  setReal cfg s cfg.names.deltaTextern 0

/-- `AnalogInputs::reset`. -/
def reset (cfg : Config) (env : Env) (s : State) : State :=
  resetAccumulatedMeasurements cfg env { s with calculationCount_ := 0 }

/-- `toHoursBasis`; the divisor is a build-time constant expression. -/
def toHoursBasis (cfg : Config) (accumulator : Nat) : Nat :=
  accumulator /
    (1000000 / cfg.TIMER_INTERRUPT_PERIOD_MICROSECONDS * 3600 / cfg.TIMER_SLOW_INTERRUPT_INTERVAL)

/-- `AnalogInputs::getCharge`; the `uint32_t` result is returned as
`ValueType`. -/
def getCharge (cfg : Config) (s : State) : Nat := toHoursBasis cfg s.i_charge_ % 65536

/-- `AnalogInputs::getEout`. -/
def getEout (cfg : Config) (s : State) : Nat := toHoursBasis cfg (s.i_Eout_ / 2) % 65536

/-- `AnalogInputs::doSlowInterrupt`; `i_charge_` and `i_Eout_` are `uint32_t`,
`i_Eout_dt_` is `uint8_t`. -/
def doSlowInterrupt (cfg : Config) (s : State) : State :=
  let s := { s with i_charge_ := (s.i_charge_ + getIout cfg s) % 4294967296 }
  let s := { s with i_Eout_dt_ := (s.i_Eout_dt_ + 255) % 256 }
  if s.i_Eout_dt_ = 0 then
    let s := { s with i_Eout_dt_ := ANALOG_INPUTS_E_OUT_dt_FACTOR }
    let P := getIout cfg s
    let P := (P * getVout cfg s) % 4294967296
    let E_since_previous_measurement := P / ANALOG_INPUTS_E_OUT_DIVIDER
    { s with i_Eout_ := (s.i_Eout_ + E_since_previous_measurement) % 4294967296 }
  else s

/-- `AnalogInputs::intterruptFinalizeMeasurement`. -/
def intterruptFinalizeMeasurement (s : State) : State :=
  if s.i_avrCount_ > 0 then { s with i_avrCount_ := s.i_avrCount_ - 1 } else s

/-- `AnalogInputs::setRealBasedOnAvr`. -/
def setRealBasedOnAvr (cfg : Config) (env : Env) (s : State) (name : Nat) : Option State :=
  let s := { s with
    avrAdc_ := setAt s.avrAdc_ name
      ((s.i_avrSum_ name / ANALOG_INPUTS_ADC_MEASUREMENTS_COUNT cfg) % 65536) }
  (calibrateValue cfg env.cal name (s.avrAdc_ name)).map fun real => setReal cfg s name real

/-- `AnalogInputs::finalizeDeltaMeasurement`; the local sums and
`deltaAvrCount` are `uint32_t`. -/
def finalizeDeltaMeasurement (cfg : Config) (env : Env) (s : State) : Option State :=
  if Time.diffU16 s.deltaStartTimeU16_ env.milisecondsU16 > ANALOG_INPUTS_DELTA_TIME_MILISECONDS
  then
    let deltaAvrCount :=
      ((s.i_deltaAvrCount_ * ANALOG_INPUTS_ADC_MEASUREMENTS_COUNT cfg) % 4294967296) >>>
        cfg.ANALOG_INPUTS_ADC_DELTA_SHIFT
    let deltaAvrSumVoutPlus := s.i_deltaAvrSumVoutPlus_
    let deltaAvrSumVoutMinus := s.i_deltaAvrSumVoutMinus_
    let deltaAvrSumTextern := s.i_deltaAvrSumTextern_
    let s := _resetDeltaAvr env s
    let s := { s with deltaCount_ := (s.deltaCount_ + 1) % 65536 }
    if deltaAvrCount = 0 then none else
    let deltaAvrSumVoutPlus := deltaAvrSumVoutPlus / deltaAvrCount
    let deltaAvrSumVoutMinus := deltaAvrSumVoutMinus / deltaAvrCount
    (calibrateValue cfg env.cal cfg.names.Vout_plus_pin (deltaAvrSumVoutPlus % 65536)).bind
      fun VoutPlus =>
    (calibrateValue cfg env.cal cfg.names.Vout_minus_pin (deltaAvrSumVoutMinus % 65536)).bind
      fun VoutMinus =>
    let real := if VoutPlus > VoutMinus then VoutPlus - VoutMinus else 0
    let old := getRealValue s cfg.names.deltaVoutMax
    let s := if real ≥ old ∨ s.enable_deltaVoutMax_ = false then
        setReal cfg s cfg.names.deltaVoutMax real
      else s
    let s := setReal cfg s cfg.names.deltaVout (subU16 real old)
    let deltaAvrSumTextern := deltaAvrSumTextern / deltaAvrCount
    let x := deltaAvrSumTextern % 65536
    (calibrateValue cfg env.cal cfg.names.Textern x).bind fun real =>
    let old := s.deltaLastT_
    let s := { s with deltaLastT_ := real }
    let real := subU16 real old
    let real := (real * 2) % 65536
    let s := setReal cfg s cfg.names.deltaTextern real
    some (setReal cfg s cfg.names.deltaLastCount (deltaAvrCount % 65536))
  else some s

/-- One iteration of the loops of `finalizeFullVirtualMeasurement` that copy
a balance pin to its cell channel. -/
def virtualCellStep (cfg : Config) (s : State) (i : Nat) : State :=
  setReal cfg s (cfg.names.Vb1 + i) (getRealValue s (cfg.names.Vb1_pin + i))

/-- One iteration of the loop of `finalizeFullVirtualMeasurement` that adds
up the connected cells; `balancer` is a `ValueType`. -/
def balancerSumStep (cfg : Config) (s : State) (connectedCells balancer i : Nat) : Nat :=
  if bitSet connectedCells i then addU16 balancer (getRealValue s (cfg.names.Vb1 + i))
  else balancer

/-- The cell channels of `finalizeFullVirtualMeasurement`, in either wiring
mode. -/
def virtualCells (cfg : Config) (s : State) : State :=
  if cfg.ENABLE_SIMPLIFIED_VB0_VB2_CIRCUIT then
    let vb0_p := getRealValue s cfg.names.Vb0_pin
    let vb1_p := getRealValue s cfg.names.Vb1_pin
    let vb2_p := getRealValue s cfg.names.Vb2_pin
    let balance1 := if vb1_p > vb0_p then vb1_p - vb0_p else 0
    let balance2 := if vb2_p > vb1_p then vb2_p - vb1_p else 0
    let s := setReal cfg s cfg.names.Vb1 balance1
    let s := setReal cfg s cfg.names.Vb2 balance2
    (List.range' 2 (cfg.MAX_BANANCE_CELLS - 2)).foldl (virtualCellStep cfg) s
  else
    (List.range cfg.MAX_BANANCE_CELLS).foldl (virtualCellStep cfg) s

/-- `AnalogInputs::finalizeFullVirtualMeasurement`. -/
def finalizeFullVirtualMeasurement (cfg : Config) (env : Env) (s : State) : State :=
  let out_p := s.real_ cfg.names.Vout_plus_pin
  let out_m := s.real_ cfg.names.Vout_minus_pin
  let out := if out_m < out_p then out_p - out_m else 0
  let s := setReal cfg s cfg.names.Vout out
  let s := virtualCells cfg s
  let connectedCells := getConnectedBalancePorts cfg s
  let balancer := (List.range cfg.MAX_BANANCE_CELLS).foldl (balancerSumStep cfg s connectedCells) 0
  let s := setReal cfg s cfg.names.Vbalancer balancer
  let off := decide (balancer = 0 ∨ absDiff out balancer > cfg.ANALOG_VOLT_3)
  let obInfo := if off then cfg.names.Vout else cfg.names.Vbalancer
  let connectedCells := if off then 0 else connectedCells
  let out := if off then out else balancer
  let s := setReal cfg s cfg.names.VoutBalancer out
  let s := setReal cfg s cfg.names.VbalanceInfo connectedCells
  let s := setReal cfg s cfg.names.VobInfo obInfo
  let IoutValue :=
    if env.dischargerOn then getRealValue s cfg.names.Idischarge
    else if env.smpsOn then getRealValue s cfg.names.Ismps
    else 0
  let P := ((IoutValue * out) % 4294967296) / 10000
  let s := setReal cfg s cfg.names.Pout (P % 65536)
  let s := setReal cfg s cfg.names.Iout IoutValue
  let s := setReal cfg s cfg.names.Cout (getCharge cfg s)
  setReal cfg s cfg.names.Eout (getEout cfg s)

/-- `AnalogInputs::finalizeFullMeasurement`; the sums are `uint32_t`, the
counts `uint16_t`. -/
def finalizeFullMeasurement (cfg : Config) (env : Env) (s : State) : Option State :=
  let avrCount := s.i_avrCount_
  if avrCount = 0 then
    let r : Option State :=
      if s.ignoreLastResult_ = false then
        if isPowerOn s then
          let s := { s with calculationCount_ := (s.calculationCount_ + 1) % 65536 }
          let s := { s with
            i_deltaAvrSumVoutPlus_ := (s.i_deltaAvrSumVoutPlus_ +
              (s.i_avrSum_ cfg.names.Vout_plus_pin >>> cfg.ANALOG_INPUTS_ADC_DELTA_SHIFT))
                % 4294967296 }
          let s := { s with
            i_deltaAvrSumVoutMinus_ := (s.i_deltaAvrSumVoutMinus_ +
              (s.i_avrSum_ cfg.names.Vout_minus_pin >>> cfg.ANALOG_INPUTS_ADC_DELTA_SHIFT))
                % 4294967296 }
          let s := { s with
            i_deltaAvrSumTextern_ := (s.i_deltaAvrSumTextern_ +
              (s.i_avrSum_ cfg.names.Textern >>> cfg.ANALOG_INPUTS_ADC_DELTA_SHIFT))
                % 4294967296 }
          let s := { s with i_deltaAvrCount_ := (s.i_deltaAvrCount_ + 1) % 65536 }
          (finalizeDeltaMeasurement cfg env s).bind fun s =>
          ((List.range cfg.ANALOG_INPUTS_PHYSICAL_INPUTS).foldlM
            (fun s name => setRealBasedOnAvr cfg env s name) s).bind fun s =>
          some (finalizeFullVirtualMeasurement cfg env s)
        else if s.onTintern_ then setRealBasedOnAvr cfg env s cfg.names.Tintern
        else some s
      else some s
    r.map (_resetAvr cfg)
  else some s

/-- The channels `finalizeFullVirtualMeasurement` writes besides the cell
channels. -/
def virtualNames (cfg : Config) : List Nat :=
  [cfg.names.Vout, cfg.names.Vbalancer, cfg.names.VoutBalancer, cfg.names.VbalanceInfo,
    cfg.names.VobInfo, cfg.names.Pout, cfg.names.Iout, cfg.names.Cout, cfg.names.Eout]

/-- The enumerators of `enum Name` denote distinct channels: the channels of
`virtualNames` differ from one another and from every cell channel
`Vb1 + i`, and in the simplified wiring mode `Vb1` and `Vb2` are the first two
cell channels. -/
structure NamesDistinct (cfg : Config) : Prop where
  virtuals : (virtualNames cfg).Nodup
  cells : ∀ n, n ∈ virtualNames cfg → ∀ i, i < cfg.MAX_BANANCE_CELLS → n ≠ cfg.names.Vb1 + i
  simplified : cfg.ENABLE_SIMPLIFIED_VB0_VB2_CIRCUIT = true →
    cfg.names.Vb2 = cfg.names.Vb1 + 1 ∧ 2 ≤ cfg.MAX_BANANCE_CELLS

end AnalogInputs

/-! ## The balancer (Balancer.cpp) -/

namespace Balancer

/-- `Balancer::getV`. -/
def getV (cfg : Config) (w : World) (cell : Nat) : Nat :=
  AnalogInputs.getRealValue w.ai (cfg.names.Vb1 + cell)

/-- `Balancer::getPresumedV`. -/
def getPresumedV (cfg : Config) (w : World) (cell : Nat) : Nat :=
  if w.balance = 0 then getV cfg w cell
  else if w.savedVon then subU16 (addU16 (getV cfg w cell) (w.Voff_ cell)) (w.Von_ cell)
  else w.Voff_ cell

/-- `Balancer::isWorking`. -/
def isWorking (cfg : Config) (w : World) : Bool :=
  if w.balance ≠ 0 then true
  else if !AnalogInputs.isPowerOn w.ai then false
  else
    let isOff := subU16 (AnalogInputs.getFullMeasurementCount w.ai) w.balancingEnded
    decide (isOff < cfg.balancerStartStableCount / 2)

/-- `Balancer::setBalance`. -/
def setBalance (cfg : Config) (w : World) (v : Nat) : World :=
  let w := if w.balance ≠ 0 ∧ v = 0 then
      { w with balancingEnded := AnalogInputs.getFullMeasurementCount w.ai }
    else w
  let w := { w with balance := v }
  let w := { w with ai := AnalogInputs.resetStable cfg w.ai }
  if !w.done then hardware.setBalancer w v else w

/-- `Balancer::endBalancing`. -/
def endBalancing (cfg : Config) (w : World) : World :=
  let w := setBalance cfg w 0
  { w with done := true }

/-- `Balancer::powerOff`. -/
def powerOff (cfg : Config) (w : World) : World :=
  let w := endBalancing cfg w
  hardware.setBalancerOutput w false

/-- Modelled from the spec: `Balancer::resetMinCell` of `Balancer.h` ("reset the
minimum-cell index to unset"). -/
def resetMinCell (w : World) : World := { w with minCell := -1 }

/-- One iteration of the loop of `powerOn`. -/
def powerOnStep (cfg : Config) (w : World) (i : Nat) : World :=
  let vi := getV cfg w i
  { w with Von_ := setAt w.Von_ i vi, Voff_ := setAt w.Voff_ i vi }

/-- `Balancer::powerOn`. -/
def powerOn (cfg : Config) (w : World) : World :=
  let w := hardware.setBalancerOutput w true
  let w := { w with connectedCells := AnalogInputs.getConnectedBalancePorts cfg w.ai }
  let w := (List.range cfg.MAX_BANANCE_CELLS).foldl (powerOnStep cfg) w
  let w := { w with balance := 0 }
  let w := { w with done := false }
  let w := setBalance cfg w 0
  let w := { w with balancingEnded := 0 }
  resetMinCell w

/-- One iteration of the loop of `getCellMinV`; the loop state is `(c, vmin)`. -/
def getCellMinVStep (cfg : Config) (w : World) (st : Int × Nat) (i : Nat) : Int × Nat :=
  if bitSet w.connectedCells i then
    let v := getV cfg w i
    if st.2 > v then ((i : Int), v) else st
  else st

/-- `Balancer::getCellMinV`; the `int8_t` result `c` is returned as `uint8_t`. -/
def getCellMinV (cfg : Config) (w : World) : Nat :=
  toUInt8 ((List.range cfg.MAX_BANANCE_CELLS).foldl (getCellMinVStep cfg w) (-1, UINT16_MAX)).1

/-- One iteration of the loop of `calculateBalance`; the loop state is
`(retu, cell)`. -/
def calculateBalanceStep (cfg : Config) (w : World) (vmin : Nat) (st : Nat × Nat) (c : Nat) :
    Nat × Nat :=
  let retu :=
    if (w.connectedCells &&& st.2) ≠ 0 then
      if getPresumedV cfg w c > vmin then st.1 ||| st.2 else st.1
    else st.1
  (retu, (st.2 <<< 1) % 65536)

/-- `Balancer::calculateBalance`. -/
def calculateBalance (cfg : Config) (w : World) : Nat :=
  if w.minCell < 0 then 0 else
  let vmin := getPresumedV cfg w (toUInt8 w.minCell)
  ((List.range cfg.MAX_BANANCE_CELLS).foldl (calculateBalanceStep cfg w vmin) (0, 1)).1

/-- `Balancer::isStable`. -/
def isStable (cfg : Config) (w : World) (stableCount : Nat) : Bool :=
  (List.range cfg.MAX_BANANCE_CELLS).all fun c =>
    !(bitSet w.connectedCells c &&
      decide (AnalogInputs.getStableCount w.ai (cfg.names.Vb1 + c) < stableCount))

end Balancer

/-- `AnalogInputs::isOutStable`. -/
def AnalogInputs.isOutStable (cfg : Config) (w : World) : Bool :=
  AnalogInputs.isStable cfg w.ai cfg.names.VoutBalancer &&
    AnalogInputs.isStable cfg w.ai cfg.names.Iout &&
    Balancer.isStable cfg w cfg.balancerIsStableDefault

namespace Balancer

/-- The loop of `startBalacing` over the remaining cell indices; the loop
state is `off` and the world (whose `Von_`/`Voff_` the loop writes). A cell
below `VdisMin` sets `off` and leaves the loop. -/
def startBalacingLoop (cfg : Config) (vmin VdisMin : Nat) : List Nat → Bool → World → Bool × World
  | [], off, w => (off, w)
  | i :: rest, off, w =>
    if bitSet w.connectedCells i then
      let v := getV cfg w i
      if v < VdisMin then (true, w)
      else
        let off := if v > vmin then false else off
        let w := { w with Von_ := setAt w.Von_ i v, Voff_ := setAt w.Voff_ i v }
        startBalacingLoop cfg vmin VdisMin rest off w
    else startBalacingLoop cfg vmin VdisMin rest off w

/-- `Balancer::startBalacing`. -/
def startBalacing (cfg : Config) (w : World) : World :=
  if !isStable cfg w cfg.balancerStartStableCount || !AnalogInputs.isOutStable cfg w then w else
  let w := if w.minCell < 0 then { w with minCell := toInt8 (getCellMinV cfg w) } else w
  let vmin := getV cfg w (toUInt8 w.minCell)
  let VdisMin := w.Vd_per_cell
  let r := startBalacingLoop cfg vmin VdisMin (List.range cfg.MAX_BANANCE_CELLS) true w
  let off := r.1
  let w := r.2
  let w := { w with savedVon := false }
  let w := { w with startBalanceTimeSecondsU16_ := w.secondsU16 }
  if off then endBalancing cfg w else setBalance cfg w (calculateBalance cfg w)

/-- The value `minCell` holds after the resolution at the head of
`startBalacing` (`if(minCell < 0) minCell = getCellMinV();`). -/
def resolvedMinCell (cfg : Config) (w : World) : Int :=
  if w.minCell < 0 then toInt8 (getCellMinV cfg w) else w.minCell

/-- The channel `Balancer::getV` reads for `cell`, the argument
`(enum AnalogInputs::Name)(AnalogInputs::Vb1+cell)` of `getRealValue`. -/
def getVName (cfg : Config) (cell : Nat) : Nat := cfg.names.Vb1 + cell

/-- The world `startBalacing` holds when it leaves its loop and has cleared
`savedVon` and stamped the start time: `w` with the minimum cell `m` and the
tables `von`, `voff` the loop wrote. -/
def afterStartLoop (w : World) (m : Int) (von voff : Nat → Nat) : World :=
  { w with
    minCell := m, Von_ := von, Voff_ := voff, savedVon := false,
    startBalanceTimeSecondsU16_ := w.secondsU16 }

/-- The start-balancing precondition: every connected cell stable for
`balancerStartStableCount` windows and the output stable. -/
def startStable (cfg : Config) (w : World) : Prop :=
  isStable cfg w cfg.balancerStartStableCount = true ∧ AnalogInputs.isOutStable cfg w = true

/-- One iteration of the loop of `trySaveVon`. -/
def trySaveVonStep (cfg : Config) (w : World) (c : Nat) : World :=
  { w with Von_ := setAt w.Von_ c (getV cfg w c) }

/-- `Balancer::trySaveVon`. -/
def trySaveVon (cfg : Config) (w : World) : World :=
  if w.savedVon then w else
  let w := { w with savedVon := true }
  (List.range cfg.MAX_BANANCE_CELLS).foldl (trySaveVonStep cfg) w

/-- `Balancer::getBalanceTime`. -/
def getBalanceTime (w : World) : Nat :=
  Time.diffU16 w.startBalanceTimeSecondsU16_ w.secondsU16

/-- `Balancer::doStrategy`: the new state and the returned status. -/
def doStrategy (cfg : Config) (w : World) : World × statusType :=
  let w :=
    if w.balance = 0 then startBalacing cfg w
    else
      let w := trySaveVon cfg w
      if getBalanceTime w > cfg.maxBalanceTime then setBalance cfg w 0 else w
  if !isWorking cfg w && w.done then (w, statusType.COMPLETE) else (w, statusType.RUNNING)

/-- `Balancer::isMaxVout`. -/
def isMaxVout (cfg : Config) (w : World) (maxV : Nat) : Bool :=
  (List.range cfg.MAX_BANANCE_CELLS).any fun c =>
    bitSet w.connectedCells c && decide (getPresumedV cfg w c ≥ maxV)

/-- `Balancer::isMinVout`. -/
def isMinVout (cfg : Config) (w : World) (minV : Nat) : Bool :=
  (List.range cfg.MAX_BANANCE_CELLS).any fun c =>
    bitSet w.connectedCells c && decide (getPresumedV cfg w c ≤ minV)

/-- States reachable from `powerOn` by `doStrategy`, `powerOff` and `powerOn`
calls, the measurement engine and the clock changing arbitrarily in between. -/
inductive Reachable (cfg : Config) : World → Prop
  | powerOn (w : World) : Reachable cfg (powerOn cfg w)
  | doStrategy {w : World} : Reachable cfg w → Reachable cfg (doStrategy cfg w).1
  | powerOff {w : World} : Reachable cfg w → Reachable cfg (powerOff cfg w)
  | measure {w : World} (ai : AnalogInputs.State) (seconds : Nat) :
      Reachable cfg w → Reachable cfg { w with ai := ai, secondsU16 := seconds }

end Balancer

/-! ## Example data used by the concrete evaluations -/

/-- A channel numbering with distinct enumerators, physical inputs first. -/
def exampleNames : Names :=
  { Vout_plus_pin := 0, Vout_minus_pin := 1, Ismps := 2, Idischarge := 3,
    IsmpsSet := 4, IdischargeSet := 5, Tintern := 6, Textern := 7,
    Vb0_pin := 8, Vb1_pin := 9, Vb2_pin := 10,
    Vout := 17, Vbalancer := 18, VoutBalancer := 19, VbalanceInfo := 20, VobInfo := 21,
    Iout := 22, Pout := 23, Cout := 24, Eout := 25,
    Vb1 := 26, Vb2 := 27,
    deltaVout := 34, deltaVoutMax := 35, deltaTextern := 36, deltaLastCount := 37 }

/-- A six-cell configuration. -/
def exampleConfig : Config :=
  { names := exampleNames,
    MAX_BANANCE_CELLS := 6,
    ANALOG_INPUTS_PHYSICAL_INPUTS := 17,
    ANALOG_INPUTS_ALL_INPUTS := 38,
    ANALOG_INPUTS_MAX_CALIBRATION_POINTS := 2,
    ANALOG_INPUTS_STABLE_MIN_COUNT := 3,
    ANALOG_INPUTS_STABLE_VALUE_ERROR := 6,
    ANALOG_INPUTS_CONNECTED_MIN_VOLTAGE := 600,
    ANALOG_INPUTS_ADC_ROUND_MAX_COUNT := 100,
    ANALOG_INPUTS_ADC_BURST_COUNT := 1,
    ANALOG_INPUTS_ADC_DELTA_SHIFT := 0,
    balancerStartStableCount := 10,
    maxBalanceTime := 30,
    balancerIsStableDefault := 3,
    ENABLE_SIMPLIFIED_VB0_VB2_CIRCUIT := false,
    ANALOG_VOLT_3 := 3000,
    TIMER_INTERRUPT_PERIOD_MICROSECONDS := 512,
    TIMER_SLOW_INTERRUPT_INTERVAL := 225 }

/-- The table with the raw and the calibrated member of every point
exchanged. -/
def swapTable (cal : CalibrationTable) : CalibrationTable :=
  fun name i => { x := (cal name i).y, y := (cal name i).x }

/-- The measurement engine's variables as zero-initialised at program start. -/
def startupInputs : AnalogInputs.State :=
  { on_ := false, onTintern_ := true, ignoreLastResult_ := false, i_avrCount_ := 0,
    i_avrSum_ := fun _ => 0, i_adc_ := fun _ => 0, avrAdc_ := fun _ => 0,
    real_ := fun _ => 0, stableCount_ := fun _ => 0, calculationCount_ := 0,
    i_deltaAvrCount_ := 0, i_deltaAvrSumVoutPlus_ := 0, i_deltaAvrSumVoutMinus_ := 0,
    i_deltaAvrSumTextern_ := 0, deltaCount_ := 0, deltaLastT_ := 0, deltaStartTimeU16_ := 0,
    enable_deltaVoutMax_ := false, i_charge_ := 0, i_Eout_ := 0, i_Eout_dt_ := 0 }

/-- The balancer's variables as zero-initialised at program start, around the
given measurement engine state, with a discharge floor of 3.000 V. -/
def startupWorld (ai : AnalogInputs.State) : World :=
  { ai := ai, connectedCells := 0, minCell := 0, balance := 0, Von_ := fun _ => 0,
    Voff_ := fun _ => 0, startBalanceTimeSecondsU16_ := 0, balancingEnded := 0, done := false,
    savedVon := false, secondsU16 := 0, Vd_per_cell := 3000, balancerError := 8,
    balancerOutput := false, balancerMasks := [] }

/-- Powered measurement engine with cell 0 at `v0` and cell 1 at `v1` (other
channels 0), every channel stable for 10 windows, 100 windows measured. -/
def twoCellInputs (v0 v1 : Nat) : AnalogInputs.State :=
  { startupInputs with
    on_ := true,
    real_ := fun n => if n = 26 then v0 else if n = 27 then v1 else 0,
    stableCount_ := fun _ => 10,
    calculationCount_ := 100 }

/-- The balancer right after `powerOn` with two cells connected, the
measurement engine having then stabilised again. -/
def twoCellWorld (v0 v1 : Nat) : World :=
  { Balancer.powerOn exampleConfig (startupWorld (twoCellInputs v0 v1)) with
    ai := twoCellInputs v0 v1 }

/-- The two-cell balancer after the strategy step that started discharging
(at clock 0), with the clock advanced to 31 s. -/
def dischargingWorld : World :=
  { (Balancer.doStrategy exampleConfig (twoCellWorld 4100 4050)).1 with secondsU16 := 31 }

/-- The two-cell balancer one strategy step into the discharge: cell 0 now
reads 4080 mV under load, the clock is at 5 s, and the step has saved Von. -/
def savedWorld : World :=
  (Balancer.doStrategy exampleConfig
    { (Balancer.doStrategy exampleConfig (twoCellWorld 4100 4050)).1 with
      ai := twoCellInputs 4080 4050, secondsU16 := 5 }).1

/-- The two-cell balancer after the strategy step that started discharging,
before the next step: cell 0 now reads 4080 mV under load, the clock is at
5 s, and Von is not yet saved. -/
def loadedWorld : World :=
  { (Balancer.doStrategy exampleConfig (twoCellWorld 4100 4050)).1 with
    ai := twoCellInputs 4080 4050, secondsU16 := 5 }

/-- The two-cell balancer after the step that ended the discharge episode on
the maximum balance time (at full-measurement count 100), once 10 further
windows have been measured with every channel stable again and the cells
reading `v0` and `v1`. -/
def settledWorld (v0 v1 : Nat) : World :=
  { (Balancer.doStrategy exampleConfig dischargingWorld).1 with
    ai := { twoCellInputs v0 v1 with calculationCount_ := 110 } }

/-- The two-cell balancer that completed with both cells at 4000 mV and then
measures 4050 mV and 4100 mV, stepped once more. -/
def reopenedWorld : World :=
  (Balancer.doStrategy exampleConfig
    { (Balancer.doStrategy exampleConfig (twoCellWorld 4000 4000)).1 with
      ai := twoCellInputs 4050 4100 }).1

/-- The measurement engine applied `n` times to the same new value of one
channel. -/
def setRealTimes (cfg : Config) (name real : Nat) : Nat → AnalogInputs.State → AnalogInputs.State
  | 0, s => s
  | n + 1, s => setRealTimes cfg name real n (AnalogInputs.setReal cfg s name real)

/-- The slow interrupt run `n` times with the real values untouched in
between. -/
def doSlowInterruptTimes (cfg : Config) : Nat → AnalogInputs.State → AnalogInputs.State
  | 0, s => s
  | n + 1, s => doSlowInterruptTimes cfg n (AnalogInputs.doSlowInterrupt cfg s)

/-- Collaborators of the measurement engine with the identity calibration
`(0,0)`, `(4095,4095)` on every channel, clock 0, discharger and supply off. -/
def exampleEnv : AnalogInputs.Env :=
  { cal := fun _ i => if i = 0 then ⟨0, 0⟩ else ⟨4095, 4095⟩,
    milisecondsU16 := 0, dischargerOn := false, smpsOn := false }

/-- Measurement engine publishing output current `i` and output voltage `v`
(other channels 0). -/
def outputInputs (i v : Nat) : AnalogInputs.State :=
  { startupInputs with
    on_ := true,
    real_ := fun n => if n = 22 then i else if n = 17 then v else 0 }

/-- Powered measurement engine at the end of an averaging window of 100
samples in which the output-plus pin averaged `p` and the output-minus pin
averaged `m` (other sums 0), with `ignore` as its ignore-last-result flag. -/
def windowInputs (p m : Nat) (ignore : Bool) : AnalogInputs.State :=
  { startupInputs with
    on_ := true,
    ignoreLastResult_ := ignore,
    i_avrCount_ := 0,
    i_avrSum_ := fun n => if n = 0 then p * 100 else if n = 1 then m * 100 else 0,
    calculationCount_ := 7 }

/-- A calibration table holding the same two points for every channel. -/
def tableOf (p0 p1 : CalibrationPoint) : CalibrationTable :=
  fun _ i => if i = 0 then p0 else p1

/-! ## Theorems: calibration -/

namespace AnalogInputs

theorem wrapInt32_of_range {z : Int} (h1 : -2147483648 ≤ z) (h2 : z < 2147483648) :
    wrapInt32 z = z := by
  unfold wrapInt32
  omega

theorem tdiv_bounds {a b M : Int} (h1 : -M ≤ a) (h2 : a ≤ M) :
    -M ≤ Int.tdiv a b ∧ Int.tdiv a b ≤ M := by
  have h := Int.natAbs_tdiv a b
  have h3 : (Int.natAbs a).div (Int.natAbs b) ≤ Int.natAbs a := Nat.div_le_self _ _
  omega

/-- The final clamp and conversion of both calibration functions yields a
16-bit value. -/
theorem clamp_le (y : Int) :
    ((if (if y < 0 then 0 else y) > (UINT16_MAX : Int) then (UINT16_MAX : Int)
      else (if y < 0 then 0 else y)) % 65536).toNat ≤ 65535 := by
  simp only [UINT16_MAX]
  split_ifs <;> omega

theorem getCalibrationPoint_wf (cfg : Config) (cal : CalibrationTable) (hcal : cal.WF)
    (name i : Nat) : (getCalibrationPoint cfg cal name i).WF := by
  unfold getCalibrationPoint
  split_ifs
  · exact ⟨by decide, by decide⟩
  · exact hcal name i

/-- Reverse calibration is calibration along the exchanged axes. -/
theorem reverseCalibrateValue_eq_swap (cfg : Config) (cal : CalibrationTable) (name y : Nat) :
    reverseCalibrateValue cfg cal name y = calibrateValue cfg (swapTable cal) name y := by
  have h : ∀ i, getCalibrationPoint cfg (swapTable cal) name i =
      { x := (getCalibrationPoint cfg cal name i).y, y := (getCalibrationPoint cfg cal name i).x } := by
    intro i
    unfold getCalibrationPoint swapTable
    split_ifs <;> rfl
  unfold reverseCalibrateValue calibrateValue
  simp only [h]

/-- Truncating division of signed operands, by magnitude. -/
theorem tdiv_signed (N A : Nat) :
    Int.tdiv (N : Int) (A : Int) = ((N / A : Nat) : Int) ∧
    Int.tdiv (-(N : Int)) (-(A : Int)) = ((N / A : Nat) : Int) ∧
    Int.tdiv (-(N : Int)) (A : Int) = -((N / A : Nat) : Int) ∧
    Int.tdiv (N : Int) (-(A : Int)) = -((N / A : Nat) : Int) := by
  have h : Int.tdiv (N : Int) (A : Int) = ((N / A : Nat) : Int) := (Int.ofNat_tdiv N A).symm
  refine ⟨h, ?_, ?_, ?_⟩
  · rw [Int.tdiv_neg, Int.neg_tdiv, neg_neg, h]
  · rw [Int.neg_tdiv, h]
  · rw [Int.tdiv_neg, h]

/-- Value of `calibrateValue` for a nonzero raw value lying between the two
raw endpoints, when the product of the two spans fits `int32_t`: the
interpolation is exact. -/
theorem calibrateValue_between (cfg : Config) (cal : CalibrationTable) (hcal : cal.WF)
    (name u : Nat) (p0 p1 : CalibrationPoint)
    (hp0 : getCalibrationPoint cfg cal name 0 = p0)
    (hp1 : getCalibrationPoint cfg cal name 1 = p1)
    (hu : u ≠ 0) (hne : p0.x ≠ p1.x)
    (hbet : (p0.x ≤ u ∧ u ≤ p1.x) ∨ (p1.x ≤ u ∧ u ≤ p0.x))
    (hov : absDiff p1.x p0.x * absDiff p1.y p0.y < 2147483648) :
    calibrateValue cfg cal name u =
      some (if p0.y ≤ p1.y then p0.y + absDiff p1.y p0.y * absDiff u p0.x / absDiff p1.x p0.x
            else p0.y - absDiff p1.y p0.y * absDiff u p0.x / absDiff p1.x p0.x) := by
  obtain ⟨h0x, h0y⟩ : p0.WF := hp0 ▸ getCalibrationPoint_wf cfg cal hcal name 0
  obtain ⟨h1x, h1y⟩ : p1.WF := hp1 ▸ getCalibrationPoint_wf cfg cal hcal name 1
  unfold calibrateValue
  simp only [hu, if_false, hp0, hp1]
  have e1 : wrapInt32 (wrapInt32 (p1.y : Int) - (p0.y : Int)) = (p1.y : Int) - (p0.y : Int) := by
    unfold wrapInt32
    omega
  have e2 : wrapInt32 (wrapInt32 (u : Int) - (p0.x : Int)) = (u : Int) - (p0.x : Int) := by
    unfold wrapInt32
    omega
  have e3 : wrapInt32 (wrapInt32 (p1.x : Int) - (p0.x : Int)) = (p1.x : Int) - (p0.x : Int) := by
    unfold wrapInt32
    omega
  have ha : (p1.x : Int) - (p0.x : Int) ≠ 0 := by omega
  rw [e1, e2, e3]
  simp only [ha, if_false]
  clear e1 e2 e3
  have hUA : absDiff u p0.x ≤ absDiff p1.x p0.x := by
    unfold absDiff
    split_ifs <;> omega
  have hB65 : absDiff p1.y p0.y ≤ 65535 := by
    unfold absDiff
    split_ifs <;> omega
  generalize hB : absDiff p1.y p0.y = B at *
  generalize hU : absDiff u p0.x = U at *
  generalize hA : absDiff p1.x p0.x = A at *
  have hN : B * U ≤ A * B := by
    rw [Nat.mul_comm A B]
    exact Nat.mul_le_mul_left B hUA
  have hQ2 : B * U / A ≤ B := Nat.div_le_of_le_mul hN
  have hQ1 : B * U / A ≤ B * U := Nat.div_le_self _ _
  have hBU : ((B : Int) * (U : Int)) = ((B * U : Nat) : Int) := by push_cast; rfl
  generalize hAB : A * B = M at *
  generalize hNN : B * U = N at *
  generalize hQQ : N / A = Q at *
  clear hNN hAB
  have bN1 : -2147483648 ≤ (N : Int) := by omega
  have bN2 : (N : Int) < 2147483648 := by omega
  have bN3 : -2147483648 ≤ -(N : Int) := by omega
  have bN4 : -(N : Int) < 2147483648 := by omega
  have bQ1 : -2147483648 ≤ (Q : Int) := by omega
  have bQ2 : (Q : Int) < 2147483648 := by omega
  have bQ3 : -2147483648 ≤ -(Q : Int) := by omega
  have bQ4 : -(Q : Int) < 2147483648 := by omega
  have bS1 : -2147483648 ≤ (Q : Int) + (p0.y : Int) := by omega
  have bS2 : (Q : Int) + (p0.y : Int) < 2147483648 := by omega
  have bS3 : -2147483648 ≤ -(Q : Int) + (p0.y : Int) := by omega
  have bS4 : -(Q : Int) + (p0.y : Int) < 2147483648 := by omega
  by_cases hy : p0.y ≤ p1.y
  · have hyB : (p1.y : Int) - (p0.y : Int) = (B : Int) := by
      rw [← hB]; unfold absDiff; split_ifs <;> omega
    have hBle : p0.y + B ≤ 65535 := by
      rw [← hB]; unfold absDiff; split_ifs <;> omega
    rcases hbet with ⟨hb1, hb2⟩ | ⟨hb1, hb2⟩
    · have hxU : (u : Int) - (p0.x : Int) = (U : Int) := by
        rw [← hU]; unfold absDiff; split_ifs <;> omega
      have hxA : (p1.x : Int) - (p0.x : Int) = (A : Int) := by
        rw [← hA]; unfold absDiff; split_ifs <;> omega
      rw [hyB, hxU, hxA, hBU, wrapInt32_of_range bN1 bN2, (tdiv_signed N A).1, hQQ,
        wrapInt32_of_range bQ1 bQ2,
        wrapInt32_of_range bS1 bS2]
      simp only [hy, if_true, UINT16_MAX]
      congr 1
      split_ifs <;> omega
    · have hxU : (u : Int) - (p0.x : Int) = -(U : Int) := by
        rw [← hU]; unfold absDiff; split_ifs <;> omega
      have hxA : (p1.x : Int) - (p0.x : Int) = -(A : Int) := by
        rw [← hA]; unfold absDiff; split_ifs <;> omega
      rw [hyB, hxU, hxA, Int.mul_neg, hBU, wrapInt32_of_range bN3 bN4, (tdiv_signed N A).2.1, hQQ,
        wrapInt32_of_range bQ1 bQ2, wrapInt32_of_range bS1 bS2]
      simp only [hy, if_true, UINT16_MAX]
      congr 1
      split_ifs <;> omega
  · have hyB : (p1.y : Int) - (p0.y : Int) = -(B : Int) := by
      rw [← hB]; unfold absDiff; split_ifs <;> omega
    have hBle : B ≤ p0.y := by
      rw [← hB]; unfold absDiff; split_ifs <;> omega
    rcases hbet with ⟨hb1, hb2⟩ | ⟨hb1, hb2⟩
    · have hxU : (u : Int) - (p0.x : Int) = (U : Int) := by
        rw [← hU]; unfold absDiff; split_ifs <;> omega
      have hxA : (p1.x : Int) - (p0.x : Int) = (A : Int) := by
        rw [← hA]; unfold absDiff; split_ifs <;> omega
      rw [hyB, hxU, hxA, Int.neg_mul, hBU, wrapInt32_of_range bN3 bN4, (tdiv_signed N A).2.2.1, hQQ,
        wrapInt32_of_range bQ3 bQ4, wrapInt32_of_range bS3 bS4]
      simp only [hy, if_false, UINT16_MAX]
      congr 1
      split_ifs <;> omega
    · have hxU : (u : Int) - (p0.x : Int) = -(U : Int) := by
        rw [← hU]; unfold absDiff; split_ifs <;> omega
      have hxA : (p1.x : Int) - (p0.x : Int) = -(A : Int) := by
        rw [← hA]; unfold absDiff; split_ifs <;> omega
      rw [hyB, hxU, hxA, neg_mul_neg, hBU, wrapInt32_of_range bN1 bN2, (tdiv_signed N A).2.2.2, hQQ,
        wrapInt32_of_range bQ3 bQ4, wrapInt32_of_range bS3 bS4]
      simp only [hy, if_false, UINT16_MAX]
      congr 1
      split_ifs <;> omega

/-- Where the product of the two differences stays at least `65536` inside the
`int32_t` range, `calibrateValue` returns the exact clamped interpolation of
the specification. -/
theorem calibrateValue_eq_exact (cfg : Config) (cal : CalibrationTable) (hcal : cal.WF)
    (name x : Nat) (p0 p1 : CalibrationPoint)
    (hp0 : getCalibrationPoint cfg cal name 0 = p0)
    (hp1 : getCalibrationPoint cfg cal name 1 = p1)
    (hx0 : x ≠ 0) (hx : x ≤ 65535) (hne : p0.x ≠ p1.x)
    (hov1 : -2147418112 ≤ ((x : Int) - p0.x) * ((p1.y : Int) - p0.y))
    (hov2 : ((x : Int) - p0.x) * ((p1.y : Int) - p0.y) ≤ 2147418112) :
    calibrateValue cfg cal name x = some (calibrateExact p0 p1 x).toNat := by
  obtain ⟨h0x, h0y⟩ : p0.WF := hp0 ▸ getCalibrationPoint_wf cfg cal hcal name 0
  obtain ⟨h1x, h1y⟩ : p1.WF := hp1 ▸ getCalibrationPoint_wf cfg cal hcal name 1
  unfold calibrateValue calibrateExact
  simp only [hx0, if_false, hp0, hp1]
  have e1 : wrapInt32 (wrapInt32 (p1.y : Int) - (p0.y : Int)) = (p1.y : Int) - (p0.y : Int) := by
    unfold wrapInt32
    omega
  have e2 : wrapInt32 (wrapInt32 (x : Int) - (p0.x : Int)) = (x : Int) - (p0.x : Int) := by
    unfold wrapInt32
    omega
  have e3 : wrapInt32 (wrapInt32 (p1.x : Int) - (p0.x : Int)) = (p1.x : Int) - (p0.x : Int) := by
    unfold wrapInt32
    omega
  have ha : (p1.x : Int) - (p0.x : Int) ≠ 0 := by omega
  rw [e1, e2, e3, Int.mul_comm ((p1.y : Int) - (p0.y : Int))]
  simp only [ha, if_false]
  clear e1 e2 e3
  generalize ((x : Int) - (p0.x : Int)) * ((p1.y : Int) - (p0.y : Int)) = P at *
  have hq := tdiv_bounds (a := P) (b := (p1.x : Int) - (p0.x : Int)) (M := 2147418112)
    (by omega) (by omega)
  have bP1 : -2147483648 ≤ P := by omega
  have bP2 : P < 2147483648 := by omega
  rw [wrapInt32_of_range bP1 bP2]
  generalize Int.tdiv P ((p1.x : Int) - (p0.x : Int)) = Q at *
  have bQ1 : -2147483648 ≤ Q := by omega
  have bQ2 : Q < 2147483648 := by omega
  have bS1 : -2147483648 ≤ Q + (p0.y : Int) := by omega
  have bS2 : Q + (p0.y : Int) < 2147483648 := by omega
  rw [wrapInt32_of_range bQ1 bQ2, wrapInt32_of_range bS1 bS2, Int.add_comm Q]
  simp only [UINT16_MAX]
  congr 1
  generalize (p0.y : Int) + Q = S
  split_ifs <;> omega

theorem calibrateValue_zero (cfg : Config) (cal : CalibrationTable) (name : Nat) :
    calibrateValue cfg cal name 0 = some 0 := by
  simp [calibrateValue]

theorem reverseCalibrateValue_zero (cfg : Config) (cal : CalibrationTable) (name : Nat) :
    reverseCalibrateValue cfg cal name 0 = some 0 := by
  simp [reverseCalibrateValue]

/-- C2. Raw value 0 calibrates to 0 and calibrated value 0 reverse-calibrates
to 0, for every channel and every stored pair of calibration points,
degenerate pairs and the out-of-range fallback pair included. -/
theorem calibrate_zero (cfg : Config) (cal : CalibrationTable) (name : Nat) :
    calibrateValue cfg cal name 0 = some 0 ∧ reverseCalibrateValue cfg cal name 0 = some 0 := by
  exact ⟨calibrateValue_zero cfg cal name, reverseCalibrateValue_zero cfg cal name⟩

/-- Rounding lost by dividing by `D` and then by `A` after multiplying back,
when `D ≤ A`: at most one unit. -/
theorem div_roundtrip (A D t : Nat) (hD : 0 < D) (hDA : D ≤ A) :
    D * (A * t / D) / A ≤ t ∧ t ≤ D * (A * t / D) / A + 1 := by
  have hA : 0 < A := Nat.lt_of_lt_of_le hD hDA
  have h1 := Nat.div_add_mod (A * t) D
  have h2 := Nat.mod_lt (A * t) hD
  have h3 := Nat.div_add_mod (D * (A * t / D)) A
  have h4 := Nat.mod_lt (D * (A * t / D)) hA
  generalize A * t / D = q at *
  generalize A * t % D = r at *
  generalize D * q / A = r2 at *
  generalize D * q % A = s at *
  constructor
  · have : A * r2 ≤ A * t := by omega
    exact Nat.le_of_mul_le_mul_left this hA
  · have : A * t < A * (r2 + 2) := by
      rw [Nat.mul_add]
      omega
    have := Nat.lt_of_mul_lt_mul_left this
    omega

theorem swapTable_wf (cal : CalibrationTable) (hcal : cal.WF) : (swapTable cal).WF := by
  intro name i
  exact ⟨(hcal name i).2, (hcal name i).1⟩

theorem getCalibrationPoint_swap (cfg : Config) (cal : CalibrationTable) (name i : Nat) :
    getCalibrationPoint cfg (swapTable cal) name i =
      { x := (getCalibrationPoint cfg cal name i).y, y := (getCalibrationPoint cfg cal name i).x } := by
  unfold getCalibrationPoint swapTable
  split_ifs <;> rfl

/-- C3 (as amended). For a well-formed pair with `p0.y < p1.y` whose raw span
is at least the calibrated span (`p1.y - p0.y ≤ |p1.x - p0.x|`) and whose span
product fits `int32_t`, and for every `y` with `p0.y ≤ y ≤ p1.y`:
`reverseCalibrateValue` returns a raw value `x`, and if `x ≠ 0` then
`calibrateValue x` is `y` or `y - 1`. -/
theorem calibrate_reverse_within_one (cfg : Config) (cal : CalibrationTable) (hcal : cal.WF)
    (name y : Nat) (p0 p1 : CalibrationPoint)
    (hp0 : getCalibrationPoint cfg cal name 0 = p0)
    (hp1 : getCalibrationPoint cfg cal name 1 = p1)
    (hy : p0.y < p1.y)
    (hslope : p1.y - p0.y ≤ absDiff p1.x p0.x)
    (hov : absDiff p1.x p0.x * (p1.y - p0.y) < 2147483648)
    (hrange : p0.y ≤ y ∧ y ≤ p1.y) :
    ∃ x, reverseCalibrateValue cfg cal name y = some x ∧
      (x ≠ 0 → ∃ v, calibrateValue cfg cal name x = some v ∧ v ≤ y ∧ y ≤ v + 1) := by
  by_cases hy0 : y = 0
  · exact ⟨0, by rw [hy0]; exact reverseCalibrateValue_zero cfg cal name, fun h => absurd rfl h⟩
  obtain ⟨h0x, h0y⟩ : p0.WF := hp0 ▸ getCalibrationPoint_wf cfg cal hcal name 0
  obtain ⟨h1x, h1y⟩ : p1.WF := hp1 ▸ getCalibrationPoint_wf cfg cal hcal name 1
  have hD : absDiff p1.y p0.y = p1.y - p0.y := by
    unfold absDiff
    split_ifs <;> omega
  have ht : absDiff y p0.y = y - p0.y := by
    unfold absDiff
    split_ifs <;> omega
  have hxne : p0.x ≠ p1.x := by
    intro h
    have : absDiff p1.x p0.x = 0 := by
      unfold absDiff
      split_ifs <;> omega
    omega
  have hrev := calibrateValue_between cfg (swapTable cal) (swapTable_wf cal hcal) name y
    ⟨p0.y, p0.x⟩ ⟨p1.y, p1.x⟩
    (by rw [getCalibrationPoint_swap, hp0]) (by rw [getCalibrationPoint_swap, hp1])
    hy0 (by simp only; omega) (Or.inl hrange)
    (by simp only; rw [hD, Nat.mul_comm]; exact hov)
  simp only at hrev
  rw [← reverseCalibrateValue_eq_swap, hD, ht] at hrev
  have hround := div_roundtrip (absDiff p1.x p0.x) (p1.y - p0.y) (y - p0.y) (by omega) hslope
  have hqle : absDiff p1.x p0.x * (y - p0.y) / (p1.y - p0.y) ≤ absDiff p1.x p0.x := by
    apply Nat.div_le_of_le_mul
    rw [Nat.mul_comm (p1.y - p0.y)]
    exact Nat.mul_le_mul_left _ (by omega)
  generalize hq : absDiff p1.x p0.x * (y - p0.y) / (p1.y - p0.y) = q at *
  refine ⟨_, hrev, ?_⟩
  intro hx0
  have hAval : (p0.x < p1.x ∧ absDiff p1.x p0.x = p1.x - p0.x) ∨
      (p1.x < p0.x ∧ absDiff p1.x p0.x = p0.x - p1.x) := by
    unfold absDiff
    split_ifs <;> omega
  rcases hAval with ⟨h, hA⟩ | ⟨h, hA⟩
  · have hX : (if p0.x ≤ p1.x then p0.x + q else p0.x - q) = p0.x + q :=
      if_pos (Nat.le_of_lt h)
    rw [hX] at hx0 ⊢
    have hxq : absDiff (p0.x + q) p0.x = q := by
      unfold absDiff
      split_ifs <;> omega
    have hfwd := calibrateValue_between cfg cal hcal name (p0.x + q) p0 p1 hp0 hp1 hx0 hxne
      (Or.inl ⟨by omega, by omega⟩) (by rw [hD]; exact hov)
    rw [hxq, hD, if_pos (Nat.le_of_lt hy)] at hfwd
    exact ⟨_, hfwd, by omega, by omega⟩
  · have hX : (if p0.x ≤ p1.x then p0.x + q else p0.x - q) = p0.x - q :=
      if_neg (Nat.not_le_of_lt h)
    rw [hX] at hx0 ⊢
    have hxq : absDiff (p0.x - q) p0.x = q := by
      unfold absDiff
      split_ifs <;> omega
    have hfwd := calibrateValue_between cfg cal hcal name (p0.x - q) p0 p1 hp0 hp1 hx0 hxne
      (Or.inr ⟨by omega, by omega⟩) (by rw [hD]; exact hov)
    rw [hxq, hD, if_pos (Nat.le_of_lt hy)] at hfwd
    exact ⟨_, hfwd, by omega, by omega⟩

/-- Witness for C3: points `(0,0)`, `(4095,4095)` and `y = 2000`. -/
theorem calibrate_reverse_within_one_witness :
    ∃ x, reverseCalibrateValue exampleConfig (tableOf ⟨0, 0⟩ ⟨4095, 4095⟩) 0 2000 = some x ∧
      (x ≠ 0 → ∃ v, calibrateValue exampleConfig (tableOf ⟨0, 0⟩ ⟨4095, 4095⟩) 0 x = some v ∧
        v ≤ 2000 ∧ 2000 ≤ v + 1) :=
  calibrate_reverse_within_one exampleConfig (tableOf ⟨0, 0⟩ ⟨4095, 4095⟩)
    (by intro n i; unfold tableOf; split_ifs <;> exact ⟨by decide, by decide⟩)
    0 2000 ⟨0, 0⟩ ⟨4095, 4095⟩ (by decide) (by decide) (by decide) (by decide) (by decide)
    (by decide)

/-- C3 (counterexample). Inside `[p0.y, p1.y]` with distinct raw endpoints the
round trip can miss `y` by more than one: with `(0,0)`, `(10,1000)` and
`y = 555` the raw value is 5 and its calibration is 500; with `(0,100)`,
`(1000,1100)` and `y = 100` the raw value is 0, which calibrates to 0; with
`(65000,0)`, `(15000,50000)` and `y = 45000` the product leaves the `int32_t`
range, the raw value is 65535 and calibrates to 0; with `(0,3000)`,
`(4095,3000)` and `y = 3000` the reverse calibration divides by zero. -/
theorem calibrate_reverse_not_within_one :
    reverseCalibrateValue exampleConfig (tableOf ⟨0, 0⟩ ⟨10, 1000⟩) 0 555 = some 5 ∧
    calibrateValue exampleConfig (tableOf ⟨0, 0⟩ ⟨10, 1000⟩) 0 5 = some 500 ∧
    reverseCalibrateValue exampleConfig (tableOf ⟨0, 100⟩ ⟨1000, 1100⟩) 0 100 = some 0 ∧
    calibrateValue exampleConfig (tableOf ⟨0, 100⟩ ⟨1000, 1100⟩) 0 0 = some 0 ∧
    reverseCalibrateValue exampleConfig (tableOf ⟨65000, 0⟩ ⟨15000, 50000⟩) 0 45000 = some 65535 ∧
    calibrateValue exampleConfig (tableOf ⟨65000, 0⟩ ⟨15000, 50000⟩) 0 65535 = some 0 ∧
    reverseCalibrateValue exampleConfig (tableOf ⟨0, 3000⟩ ⟨4095, 3000⟩) 0 3000 = none := by
  decide

/-- C4 (as amended). With a well-formed table, `calibrateValue` divides by a
nonzero divisor and returns a value in `[0, 65535]` whenever the two points of
the channel have distinct raw members, and `reverseCalibrateValue` does so
whenever they have distinct calibrated members; both hold for every input. -/
theorem calibrate_defined_of_distinct (cfg : Config) (cal : CalibrationTable) (hcal : cal.WF)
    (name v : Nat) :
    ((getCalibrationPoint cfg cal name 0).x ≠ (getCalibrationPoint cfg cal name 1).x →
      ∃ r, calibrateValue cfg cal name v = some r ∧ r ≤ 65535) ∧
    ((getCalibrationPoint cfg cal name 0).y ≠ (getCalibrationPoint cfg cal name 1).y →
      ∃ r, reverseCalibrateValue cfg cal name v = some r ∧ r ≤ 65535) := by
  have hwf : ∀ i, (getCalibrationPoint cfg cal name i).WF := by
    intro i
    unfold getCalibrationPoint
    split_ifs
    · exact ⟨by decide, by decide⟩
    · exact hcal name i
  obtain ⟨h0x, h0y⟩ := hwf 0
  obtain ⟨h1x, h1y⟩ := hwf 1
  constructor
  · intro hne
    unfold calibrateValue
    by_cases hv : v = 0
    · exact ⟨0, by simp [hv], by omega⟩
    · have ha : wrapInt32 (wrapInt32 ((getCalibrationPoint cfg cal name 1).x : Int) -
          ((getCalibrationPoint cfg cal name 0).x : Int)) ≠ 0 := by
        unfold wrapInt32
        omega
      simp only [hv, if_false, ha]
      exact ⟨_, rfl, clamp_le _⟩
  · intro hne
    unfold reverseCalibrateValue
    by_cases hv : v = 0
    · exact ⟨0, by simp [hv], by omega⟩
    · have ha : wrapInt32 (wrapInt32 ((getCalibrationPoint cfg cal name 1).y : Int) -
          ((getCalibrationPoint cfg cal name 0).y : Int)) ≠ 0 := by
        unfold wrapInt32
        omega
      simp only [hv, if_false, ha]
      exact ⟨_, rfl, clamp_le _⟩

/-- Witness for C4: distinct endpoints `(0,0)`, `(4095,4095)` and input 2000. -/
theorem calibrate_defined_of_distinct_witness :
    (∃ r, calibrateValue exampleConfig (tableOf ⟨0, 0⟩ ⟨4095, 4095⟩) 0 2000 = some r ∧ r ≤ 65535) ∧
    (∃ r, reverseCalibrateValue exampleConfig (tableOf ⟨0, 0⟩ ⟨4095, 4095⟩) 0 2000 = some r ∧
      r ≤ 65535) :=
  have h := calibrate_defined_of_distinct exampleConfig (tableOf ⟨0, 0⟩ ⟨4095, 4095⟩)
    (by intro n i; unfold tableOf; split_ifs <;> exact ⟨by decide, by decide⟩) 0 2000
  ⟨h.1 (by decide), h.2 (by decide)⟩

/-- C4 (counterexample). For a channel index past the physical inputs
`getCalibrationPoint` yields the pair `(1,1)`, `(1,1)`; with it, and with a
stored pair whose raw (resp. calibrated) members coincide, a nonzero input
reaches the division with divisor zero. -/
theorem calibrate_divides_by_zero :
    getCalibrationPoint exampleConfig (tableOf ⟨0, 0⟩ ⟨4095, 4095⟩) 99 0 = ⟨1, 1⟩ ∧
    getCalibrationPoint exampleConfig (tableOf ⟨0, 0⟩ ⟨4095, 4095⟩) 99 1 = ⟨1, 1⟩ ∧
    calibrateValue exampleConfig (tableOf ⟨0, 0⟩ ⟨4095, 4095⟩) 99 5 = none ∧
    reverseCalibrateValue exampleConfig (tableOf ⟨0, 0⟩ ⟨4095, 4095⟩) 99 5 = none ∧
    calibrateValue exampleConfig (tableOf ⟨700, 0⟩ ⟨700, 4095⟩) 0 5 = none ∧
    reverseCalibrateValue exampleConfig (tableOf ⟨0, 3000⟩ ⟨4095, 3000⟩) 0 5 = none := by
  decide

/-- C1 (evaluation at the failing input). With the points `(0,0)` and
`(50000,50000)` and raw value 50000 the exact interpolation is 50000, but the
product `50000 * 50000` leaves the `int32_t` range and `calibrateValue`
returns 0. -/
theorem calibrateValue_overflow :
    calibrateExact ⟨0, 0⟩ ⟨50000, 50000⟩ 50000 = 50000 ∧
    calibrateValue exampleConfig (tableOf ⟨0, 0⟩ ⟨50000, 50000⟩) 0 50000 = some 0 := by
  decide

end AnalogInputs

/-! ## Theorems: bit masks -/

theorem bitSet_eq_testBit (m i : Nat) : bitSet m i = m.testBit i := by
  unfold bitSet
  rw [Nat.one_shiftLeft, Nat.and_two_pow]
  cases m.testBit i <;> simp

theorem and_two_pow_ne_zero (m i : Nat) : (m &&& 2 ^ i) ≠ 0 ↔ m.testBit i = true := by
  rw [Nat.and_two_pow]
  cases m.testBit i <;> simp

theorem two_pow_mod_of_lt {n : Nat} (h : n < 16) : 2 ^ n % 65536 = 2 ^ n :=
  Nat.mod_eq_of_lt (Nat.pow_lt_pow_right (by decide) h)

theorem two_pow_mod_of_ge {n : Nat} (h : 16 ≤ n) : 2 ^ n % 65536 = 0 :=
  Nat.mod_eq_zero_of_dvd (Nat.pow_dvd_pow 2 h)

/-- The 16-bit left shift by one of the loop masks `port` and `cell`. -/
theorem shift_cell (n : Nat) : ((2 ^ n % 65536) <<< 1) % 65536 = 2 ^ (n + 1) % 65536 := by
  rw [Nat.shiftLeft_eq, Nat.pow_succ]
  omega

theorem testBit_65535 {i : Nat} (h : i < 16) : (65535 : Nat).testBit i = true := by
  interval_cases i <;> decide

/-- A mask whose bits all lie below 16 and inside `c` has no bit in the
16-bit complement of `c`. -/
theorem and_not_eq_zero {a c : Nat} (h : ∀ i, a.testBit i = true → i < 16 ∧ c.testBit i = true) :
    a &&& (65535 ^^^ c) = 0 := by
  apply Nat.eq_of_testBit_eq
  intro i
  rw [Nat.testBit_and, Nat.testBit_xor, Nat.zero_testBit]
  by_cases hi : a.testBit i = true
  · obtain ⟨h16, hc⟩ := h i hi
    rw [hi, testBit_65535 h16, hc]
    rfl
  · simp only [Bool.not_eq_true] at hi
    rw [hi]
    rfl

namespace Balancer

/-! ## Theorems: the discharge mask -/

/-- After `n` iterations of the loop of `calculateBalance`, `cell` is the
16-bit value of `1 << n` and `retu` holds exactly the bits of the connected
cells below `n` whose presumed voltage exceeds `vmin`. -/
theorem calculateBalance_loop (cfg : Config) (w : World) (vmin n : Nat) :
    ((List.range n).foldl (calculateBalanceStep cfg w vmin) (0, 1)).2 = 2 ^ n % 65536 ∧
    ∀ i, ((List.range n).foldl (calculateBalanceStep cfg w vmin) (0, 1)).1.testBit i = true ↔
      (i < n ∧ i < 16 ∧ w.connectedCells.testBit i = true ∧ getPresumedV cfg w i > vmin) := by
  induction n with
  | zero =>
    refine ⟨rfl, fun i => ?_⟩
    simp
  | succ n ih =>
    obtain ⟨ih1, ih2⟩ := ih
    rw [List.range_succ, List.foldl_append]
    simp only [List.foldl_cons, List.foldl_nil]
    generalize (List.range n).foldl (calculateBalanceStep cfg w vmin) (0, 1) = st at ih1 ih2
    unfold calculateBalanceStep
    simp only [ih1]
    refine ⟨shift_cell n, fun i => ?_⟩
    by_cases hn : n < 16
    · rw [two_pow_mod_of_lt hn]
      by_cases hc : (w.connectedCells &&& 2 ^ n) ≠ 0
      · have hcb := (and_two_pow_ne_zero _ _).1 hc
        by_cases hv : getPresumedV cfg w n > vmin
        · simp only [hc, hv, if_true, ne_eq, not_false_eq_true]
          rw [Nat.testBit_or, Bool.or_eq_true, ih2 i, Nat.testBit_two_pow]
          constructor
          · rintro (⟨h1, h2, h3, h4⟩ | h)
            · exact ⟨by omega, h2, h3, h4⟩
            · have hin : n = i := of_decide_eq_true h
              subst hin
              exact ⟨by omega, hn, hcb, hv⟩
          · rintro ⟨h1, h2, h3, h4⟩
            by_cases hin : n = i
            · right
              exact decide_eq_true hin
            · left
              exact ⟨by omega, h2, h3, h4⟩
        · simp only [hc, hv, if_true, if_false, ne_eq, not_false_eq_true]
          rw [ih2 i]
          constructor
          · rintro ⟨h1, h2, h3, h4⟩
            exact ⟨by omega, h2, h3, h4⟩
          · rintro ⟨h1, h2, h3, h4⟩
            refine ⟨?_, h2, h3, h4⟩
            by_cases hin : i = n
            · subst hin
              exact absurd h4 hv
            · omega
      · simp only [hc, if_false]
        rw [ih2 i]
        have hcb : ¬ w.connectedCells.testBit n = true := fun h =>
          hc ((and_two_pow_ne_zero _ _).2 h)
        constructor
        · rintro ⟨h1, h2, h3, h4⟩
          exact ⟨by omega, h2, h3, h4⟩
        · rintro ⟨h1, h2, h3, h4⟩
          refine ⟨?_, h2, h3, h4⟩
          by_cases hin : i = n
          · subst hin
            exact absurd h3 hcb
          · omega
    · rw [two_pow_mod_of_ge (by omega)]
      simp only [Nat.and_zero, ne_eq, not_true_eq_false, if_false]
      rw [ih2 i]
      constructor
      · rintro ⟨h1, h2, h3, h4⟩
        exact ⟨by omega, h2, h3, h4⟩
      · rintro ⟨h1, h2, h3, h4⟩
        exact ⟨by omega, h2, h3, h4⟩

/-- Bits of the mask returned by `calculateBalance`, for any cell count. -/
theorem calculateBalance_testBit (cfg : Config) (w : World) (i : Nat) :
    (calculateBalance cfg w).testBit i = true ↔
      (0 ≤ w.minCell ∧ i < cfg.MAX_BANANCE_CELLS ∧ i < 16 ∧ w.connectedCells.testBit i = true ∧
        getPresumedV cfg w i > getPresumedV cfg w (toUInt8 w.minCell)) := by
  unfold calculateBalance
  by_cases hm : w.minCell < 0
  · simp only [hm, if_true, Nat.zero_testBit]
    constructor
    · intro h
      exact absurd h (by simp)
    · rintro ⟨h, -⟩
      omega
  · simp only [hm, if_false]
    rw [(calculateBalance_loop cfg w _ _).2 i]
    constructor
    · rintro ⟨h1, h2, h3, h4⟩
      exact ⟨by omega, h1, h2, h3, h4⟩
    · rintro ⟨-, h1, h2, h3, h4⟩
      exact ⟨h1, h2, h3, h4⟩

/-- C8. `calculateBalance` returns 0 when the minimum cell is unset; otherwise
(with at most 16 cells, the width of the mask) bit `i` of its result is set
exactly when cell `i` is connected and its presumed voltage strictly exceeds
that of the minimum cell, for every `i` below the cell count. For two
connected cells at 4100 mV and 4050 mV, with the minimum cell as
`getCellMinV` resolves it, the mask is 1: only the 4.10 V cell. -/
theorem calculateBalance_spec (cfg : Config) (w : World) :
    (w.minCell < 0 → calculateBalance cfg w = 0) ∧
    (0 ≤ w.minCell → cfg.MAX_BANANCE_CELLS ≤ 16 → ∀ i, i < cfg.MAX_BANANCE_CELLS →
      ((calculateBalance cfg w).testBit i = true ↔
        (w.connectedCells.testBit i = true ∧
          getPresumedV cfg w i > getPresumedV cfg w (toUInt8 w.minCell)))) ∧
    calculateBalance exampleConfig
      { twoCellWorld 4100 4050 with
        minCell := toInt8 (getCellMinV exampleConfig (twoCellWorld 4100 4050)) } = 1 := by
  refine ⟨?_, ?_, by decide⟩
  · intro h
    unfold calculateBalance
    rw [if_pos h]
  · intro h0 hmax i hi
    rw [calculateBalance_testBit]
    constructor
    · rintro ⟨-, -, -, h3, h4⟩
      exact ⟨h3, h4⟩
    · rintro ⟨h3, h4⟩
      exact ⟨h0, hi, by omega, h3, h4⟩

/-- Witness for C8: the two-cell state with minimum cell 1. -/
theorem calculateBalance_spec_witness :
    ∀ i, i < 6 →
      ((calculateBalance exampleConfig { twoCellWorld 4100 4050 with minCell := 1 }).testBit i
          = true ↔
        ((3 : Nat).testBit i = true ∧
          getPresumedV exampleConfig { twoCellWorld 4100 4050 with minCell := 1 } i >
            getPresumedV exampleConfig { twoCellWorld 4100 4050 with minCell := 1 } 1)) :=
  (calculateBalance_spec exampleConfig { twoCellWorld 4100 4050 with minCell := 1 }).2.1
    (by decide) (by decide)

/-! ## Theorems: presumed voltage -/

/-- C9. `getPresumedV c` is the live voltage when `balance = 0`; it is
`live + Voff[c] - Von[c]` modulo `2^16` when `balance ≠ 0` and Von has been
saved; it is `Voff[c]` when `balance ≠ 0` and Von has not been saved. -/
theorem getPresumedV_spec (cfg : Config) (w : World) (c : Nat) :
    (w.balance = 0 → getPresumedV cfg w c = getV cfg w c) ∧
    (w.balance ≠ 0 → w.savedVon = true →
      (getPresumedV cfg w c : Int) =
        ((getV cfg w c : Int) + (w.Voff_ c : Int) - (w.Von_ c : Int)) % 65536) ∧
    (w.balance ≠ 0 → w.savedVon = false → getPresumedV cfg w c = w.Voff_ c) := by
  refine ⟨?_, ?_, ?_⟩
  · intro h
    unfold getPresumedV
    rw [if_pos h]
  · intro h hs
    unfold getPresumedV
    rw [if_neg h, if_pos hs]
    unfold subU16 addU16
    omega
  · intro h hs
    unfold getPresumedV
    rw [if_neg h, hs]
    rfl

/-- Witness for C9: cell 0 of the two-cell balancer when idle, when
discharging with Von saved (live 4080, Voff 4100, Von 4080), and when
discharging before Von is saved. -/
theorem getPresumedV_spec_witness :
    getPresumedV exampleConfig (twoCellWorld 4100 4050) 0 =
      getV exampleConfig (twoCellWorld 4100 4050) 0 ∧
    (getPresumedV exampleConfig savedWorld 0 : Int) =
      ((getV exampleConfig savedWorld 0 : Int) + (savedWorld.Voff_ 0 : Int) -
        (savedWorld.Von_ 0 : Int)) % 65536 ∧
    getPresumedV exampleConfig savedWorld 0 = 4100 ∧
    getPresumedV exampleConfig dischargingWorld 0 = dischargingWorld.Voff_ 0 :=
  ⟨(getPresumedV_spec exampleConfig (twoCellWorld 4100 4050) 0).1 (by decide),
   (getPresumedV_spec exampleConfig savedWorld 0).2.1 (by decide) (by decide),
   by decide,
   (getPresumedV_spec exampleConfig dischargingWorld 0).2.2 (by decide) (by decide)⟩

/-! ## Theorems: starting to balance -/

/-- The loop of `startBalacing` writes `Von_` and `Voff_` only. -/
theorem startBalacingLoop_frame (cfg : Config) (vmin VdisMin : Nat) (l : List Nat) :
    ∀ (off : Bool) (w : World), ∃ von voff,
      (startBalacingLoop cfg vmin VdisMin l off w).2 = { w with Von_ := von, Voff_ := voff } := by
  induction l with
  | nil =>
    intro off w
    exact ⟨w.Von_, w.Voff_, rfl⟩
  | cons i rest ih =>
    intro off w
    unfold startBalacingLoop
    by_cases hc : bitSet w.connectedCells i = true
    · by_cases hv : getV cfg w i < VdisMin
      · simp only [hc, hv, if_true]
        exact ⟨w.Von_, w.Voff_, rfl⟩
      · simp only [hc, hv, if_true, if_false]
        obtain ⟨von, voff, h⟩ := ih (if getV cfg w i > vmin then false else off)
          { w with Von_ := setAt w.Von_ i (getV cfg w i), Voff_ := setAt w.Voff_ i (getV cfg w i) }
        exact ⟨von, voff, h⟩
    · simp only [hc, Bool.false_eq_true, if_false]
      exact ih off w

/-- A connected cell below the discharge floor makes the loop of
`startBalacing` end with `off` set. -/
theorem startBalacingLoop_below_floor (cfg : Config) (vmin VdisMin : Nat) (l : List Nat) :
    ∀ (off : Bool) (w : World),
      (∃ i, i ∈ l ∧ bitSet w.connectedCells i = true ∧ getV cfg w i < VdisMin) →
      (startBalacingLoop cfg vmin VdisMin l off w).1 = true := by
  induction l with
  | nil =>
    rintro off w ⟨i, hi, -⟩
    exact absurd hi (List.not_mem_nil i)
  | cons j rest ih =>
    rintro off w ⟨i, hi, hci, hvi⟩
    unfold startBalacingLoop
    by_cases hc : bitSet w.connectedCells j = true
    · by_cases hv : getV cfg w j < VdisMin
      · simp only [hc, hv, if_true]
      · simp only [hc, hv, if_true, if_false]
        apply ih
        rcases List.mem_cons.1 hi with h | h
        · subst h
          exact absurd hvi hv
        · exact ⟨i, h, hci, hvi⟩
    · simp only [hc, Bool.false_eq_true, if_false]
      apply ih
      rcases List.mem_cons.1 hi with h | h
      · subst h
        exact absurd hci hc
      · exact ⟨i, h, hci, hvi⟩

/-- With no connected cell below the discharge floor, the loop of
`startBalacing` ends with `off` cleared exactly when `off` was already cleared
or some connected cell strictly exceeds `vmin`. -/
theorem startBalacingLoop_no_floor (cfg : Config) (vmin VdisMin : Nat) (l : List Nat) :
    ∀ (off : Bool) (w : World),
      (∀ i, i ∈ l → bitSet w.connectedCells i = true → VdisMin ≤ getV cfg w i) →
      ((startBalacingLoop cfg vmin VdisMin l off w).1 = false ↔
        (off = false ∨ ∃ i, i ∈ l ∧ bitSet w.connectedCells i = true ∧ getV cfg w i > vmin)) := by
  induction l with
  | nil =>
    intro off w _
    unfold startBalacingLoop
    constructor
    · intro h
      exact Or.inl h
    · rintro (h | ⟨i, hi, -⟩)
      · exact h
      · exact absurd hi (List.not_mem_nil i)
  | cons j rest ih =>
    intro off w hfloor
    unfold startBalacingLoop
    have hrest : ∀ i, i ∈ rest → bitSet w.connectedCells i = true → VdisMin ≤ getV cfg w i :=
      fun i hi => hfloor i (List.mem_cons_of_mem j hi)
    by_cases hc : bitSet w.connectedCells j = true
    · have hv : ¬ getV cfg w j < VdisMin := Nat.not_lt.2 (hfloor j (List.mem_cons_self j rest) hc)
      simp only [hc, hv, if_true, if_false]
      rw [ih _ { w with Von_ := setAt w.Von_ j (getV cfg w j),
                        Voff_ := setAt w.Voff_ j (getV cfg w j) } hrest]
      by_cases hgt : getV cfg w j > vmin
      · simp only [hgt, if_true, true_or, true_iff]
        exact Or.inr ⟨j, List.mem_cons_self j rest, hc, hgt⟩
      · simp only [hgt, if_false]
        constructor
        · rintro (h | ⟨i, hi, hci, hvi⟩)
          · exact Or.inl h
          · exact Or.inr ⟨i, List.mem_cons_of_mem j hi, hci, hvi⟩
        · rintro (h | ⟨i, hi, hci, hvi⟩)
          · exact Or.inl h
          · rcases List.mem_cons.1 hi with h | h
            · subst h
              exact absurd hvi hgt
            · exact Or.inr ⟨i, h, hci, hvi⟩
    · simp only [hc, Bool.false_eq_true, if_false]
      rw [ih off w hrest]
      constructor
      · rintro (h | ⟨i, hi, hci, hvi⟩)
        · exact Or.inl h
        · exact Or.inr ⟨i, List.mem_cons_of_mem j hi, hci, hvi⟩
      · rintro (h | ⟨i, hi, hci, hvi⟩)
        · exact Or.inl h
        · rcases List.mem_cons.1 hi with h | h
          · subst h
            exact absurd hci hc
          · exact Or.inr ⟨i, h, hci, hvi⟩

/-- Shape of `startBalacing` once the stability precondition holds: the loop
runs on the world with the minimum cell resolved, and its `off` result selects
between `endBalancing` and `setBalance(calculateBalance())`. -/
theorem startBalacing_of_stable (cfg : Config) (w : World) (hst : startStable cfg w) :
    ∃ von voff off,
      off = (startBalacingLoop cfg (getV cfg w (toUInt8 (resolvedMinCell cfg w))) w.Vd_per_cell
        (List.range cfg.MAX_BANANCE_CELLS) true { w with minCell := resolvedMinCell cfg w }).1 ∧
      startBalacing cfg w =
        if off then endBalancing cfg (afterStartLoop w (resolvedMinCell cfg w) von voff)
        else setBalance cfg (afterStartLoop w (resolvedMinCell cfg w) von voff)
          (calculateBalance cfg (afterStartLoop w (resolvedMinCell cfg w) von voff)) := by
  obtain ⟨h1, h2⟩ := hst
  have hw1 : (if w.minCell < 0 then { w with minCell := toInt8 (getCellMinV cfg w) } else w) =
      { w with minCell := resolvedMinCell cfg w } := by
    unfold resolvedMinCell
    split_ifs <;> rfl
  obtain ⟨von, voff, hframe⟩ := startBalacingLoop_frame cfg
    (getV cfg w (toUInt8 (resolvedMinCell cfg w))) w.Vd_per_cell
    (List.range cfg.MAX_BANANCE_CELLS) true { w with minCell := resolvedMinCell cfg w }
  refine ⟨von, voff, _, rfl, ?_⟩
  have key : ∀ r : Bool × World,
      r.2 = { ({ w with minCell := resolvedMinCell cfg w } : World) with
              Von_ := von, Voff_ := voff } →
      (if r.1 = true then
          endBalancing cfg { ({ r.2 with savedVon := false } : World) with
            startBalanceTimeSecondsU16_ := r.2.secondsU16 }
        else
          setBalance cfg { ({ r.2 with savedVon := false } : World) with
              startBalanceTimeSecondsU16_ := r.2.secondsU16 }
            (calculateBalance cfg { ({ r.2 with savedVon := false } : World) with
              startBalanceTimeSecondsU16_ := r.2.secondsU16 })) =
        if r.1 = true then endBalancing cfg (afterStartLoop w (resolvedMinCell cfg w) von voff)
        else setBalance cfg (afterStartLoop w (resolvedMinCell cfg w) von voff)
          (calculateBalance cfg (afterStartLoop w (resolvedMinCell cfg w) von voff)) := by
    rintro ⟨a, b⟩ hb
    simp only at hb
    subst hb
    rfl
  unfold startBalacing
  simp only [h1, h2, Bool.not_true, Bool.or_self, Bool.false_eq_true, if_false]
  rw [hw1]
  exact key _ hframe

/-- C6. When `startBalacing` runs in the Idle state with the stability
precondition satisfied and some connected cell reads below the discharge
floor `Vd_per_cell`, it ends with `done` set and `balance = 0`, and every mask
it passes to `hardware::setBalancer` is 0. -/
theorem startBalacing_below_floor (cfg : Config) (w : World)
    (hidle : w.balance = 0) (hst : startStable cfg w)
    (hlow : ∃ i, i < cfg.MAX_BANANCE_CELLS ∧ w.connectedCells.testBit i = true ∧
      getV cfg w i < w.Vd_per_cell) :
    (startBalacing cfg w).done = true ∧ (startBalacing cfg w).balance = 0 ∧
    ∃ masks, (startBalacing cfg w).balancerMasks = masks ++ w.balancerMasks ∧
      ∀ m, m ∈ masks → m = 0 := by
  obtain ⟨von, voff, off, hoff, heq⟩ := startBalacing_of_stable cfg w hst
  have hoff1 : off = true := by
    rw [hoff]
    apply startBalacingLoop_below_floor
    obtain ⟨i, hi, hc, hv⟩ := hlow
    exact ⟨i, List.mem_range.2 hi, by rw [bitSet_eq_testBit]; exact hc, hv⟩
  rw [heq, hoff1]
  simp only [if_true]
  unfold endBalancing setBalance hardware.setBalancer afterStartLoop
  refine ⟨rfl, ?_, ?_⟩
  · simp only
    split_ifs <;> rfl
  · by_cases hd : w.done = true
    · refine ⟨[], ?_, fun m hm => absurd hm (List.not_mem_nil m)⟩
      simp only [hidle, hd]
      rfl
    · refine ⟨[0], ?_, fun m hm => List.mem_singleton.1 hm⟩
      simp only [Bool.not_eq_true] at hd
      simp only [hidle, hd]
      rfl

/-- Witness for C6: two connected cells at 4100 mV and 2000 mV, floor 3000 mV. -/
theorem startBalacing_below_floor_witness :
    (startBalacing exampleConfig (twoCellWorld 4100 2000)).done = true ∧
    (startBalacing exampleConfig (twoCellWorld 4100 2000)).balance = 0 ∧
    ∃ masks, (startBalacing exampleConfig (twoCellWorld 4100 2000)).balancerMasks =
        masks ++ (twoCellWorld 4100 2000).balancerMasks ∧ ∀ m, m ∈ masks → m = 0 :=
  startBalacing_below_floor exampleConfig (twoCellWorld 4100 2000) (by decide)
    ⟨by decide, by decide⟩ ⟨1, by decide, by decide, by decide⟩

theorem setBalance_balance (cfg : Config) (w : World) (v : Nat) :
    (setBalance cfg w v).balance = v := by
  unfold setBalance hardware.setBalancer
  simp only
  split_ifs <;> rfl

theorem setBalance_done (cfg : Config) (w : World) (v : Nat) :
    (setBalance cfg w v).done = w.done := by
  unfold setBalance hardware.setBalancer
  simp only
  split_ifs <;> rfl

theorem setBalance_connectedCells (cfg : Config) (w : World) (v : Nat) :
    (setBalance cfg w v).connectedCells = w.connectedCells := by
  unfold setBalance hardware.setBalancer
  simp only
  split_ifs <;> rfl

theorem endBalancing_balance (cfg : Config) (w : World) : (endBalancing cfg w).balance = 0 := by
  unfold endBalancing
  exact setBalance_balance cfg w 0

theorem endBalancing_connectedCells (cfg : Config) (w : World) :
    (endBalancing cfg w).connectedCells = w.connectedCells := by
  unfold endBalancing
  exact setBalance_connectedCells cfg w 0

/-- Outcome of `startBalacing` with the stability precondition satisfied and
every connected cell at or above the discharge floor, measured against the
baseline `getV(minCell)` the code reads: if no connected cell's voltage
strictly exceeds the baseline it ends Complete (`done` set, `balance = 0`); if
some connected cell strictly exceeds it, then from Idle, where the minimum
cell has resolved (`minCell ≥ 0` after the resolution), with at most 16
cells, `done` is unchanged and `balance` becomes the nonzero mask of exactly
the connected cells above the baseline. -/
theorem startBalacing_outcome (cfg : Config) (w : World) (hst : startStable cfg w)
    (hfloor : ∀ i, i < cfg.MAX_BANANCE_CELLS → w.connectedCells.testBit i = true →
      w.Vd_per_cell ≤ getV cfg w i) :
    ((∀ i, i < cfg.MAX_BANANCE_CELLS → w.connectedCells.testBit i = true →
        getV cfg w i ≤ getV cfg w (toUInt8 (resolvedMinCell cfg w))) →
      (startBalacing cfg w).done = true ∧ (startBalacing cfg w).balance = 0) ∧
    ((∃ i, i < cfg.MAX_BANANCE_CELLS ∧ w.connectedCells.testBit i = true ∧
        getV cfg w i > getV cfg w (toUInt8 (resolvedMinCell cfg w))) →
      w.balance = 0 → 0 ≤ resolvedMinCell cfg w → cfg.MAX_BANANCE_CELLS ≤ 16 →
      (startBalacing cfg w).done = w.done ∧ (startBalacing cfg w).balance ≠ 0 ∧
      ∀ i, (startBalacing cfg w).balance.testBit i = true ↔
        (i < cfg.MAX_BANANCE_CELLS ∧ w.connectedCells.testBit i = true ∧
          getV cfg w i > getV cfg w (toUInt8 (resolvedMinCell cfg w)))) := by
  obtain ⟨von, voff, off, hoff, heq⟩ := startBalacing_of_stable cfg w hst
  have hloop := startBalacingLoop_no_floor cfg (getV cfg w (toUInt8 (resolvedMinCell cfg w)))
    w.Vd_per_cell (List.range cfg.MAX_BANANCE_CELLS) true
    { w with minCell := resolvedMinCell cfg w }
    (fun i hi hc => hfloor i (List.mem_range.1 hi) (by rw [← bitSet_eq_testBit]; exact hc))
  rw [← hoff] at hloop
  constructor
  · intro hnone
    have hoff1 : off = true := by
      cases hb : off
      · rcases hloop.1 hb with h | ⟨i, hi, hc, hv⟩
        · exact absurd h (by decide)
        · have hc2 : w.connectedCells.testBit i = true := by
            rw [← bitSet_eq_testBit]
            exact hc
          have hle := hnone i (List.mem_range.1 hi) hc2
          have hv2 : getV cfg w i > getV cfg w (toUInt8 (resolvedMinCell cfg w)) := hv
          omega
      · rfl
    rw [heq, hoff1]
    simp only [if_true]
    exact ⟨rfl, endBalancing_balance cfg _⟩
  · rintro ⟨i0, hi0, hc0, hv0⟩ hidle hmin hmax
    have hoff0 : off = false :=
      hloop.2 (Or.inr ⟨i0, List.mem_range.2 hi0, by rw [bitSet_eq_testBit]; exact hc0, hv0⟩)
    rw [heq, hoff0]
    simp only [Bool.false_eq_true, if_false]
    rw [setBalance_done, setBalance_balance]
    have hbits : ∀ i,
        (calculateBalance cfg (afterStartLoop w (resolvedMinCell cfg w) von voff)).testBit i = true ↔
          (i < cfg.MAX_BANANCE_CELLS ∧ w.connectedCells.testBit i = true ∧
            getV cfg w i > getV cfg w (toUInt8 (resolvedMinCell cfg w))) := by
      intro i
      rw [calculateBalance_testBit]
      have hp : ∀ c, getPresumedV cfg (afterStartLoop w (resolvedMinCell cfg w) von voff) c =
          getV cfg w c := by
        intro c
        unfold getPresumedV afterStartLoop
        simp only [hidle, if_true]
        rfl
      rw [hp, hp]
      constructor
      · rintro ⟨-, h1, -, h3, h4⟩
        exact ⟨h1, h3, h4⟩
      · rintro ⟨h1, h3, h4⟩
        exact ⟨hmin, h1, by omega, h3, h4⟩
    refine ⟨rfl, ?_, hbits⟩
    intro hz
    have hb := (hbits i0).2 ⟨hi0, hc0, hv0⟩
    rw [hz, Nat.zero_testBit] at hb
    exact absurd hb (by decide)

/-- The outcome of `startBalacing` at two inputs: two connected cells both at
4000 mV end Complete; cells at 4100 mV and 4050 mV start discharging the first
cell only. -/
theorem startBalacing_outcome_witness :
    ((startBalacing exampleConfig (twoCellWorld 4000 4000)).done = true ∧
      (startBalacing exampleConfig (twoCellWorld 4000 4000)).balance = 0) ∧
    ((startBalacing exampleConfig (twoCellWorld 4100 4050)).done = (twoCellWorld 4100 4050).done ∧
      (startBalacing exampleConfig (twoCellWorld 4100 4050)).balance ≠ 0 ∧
      ∀ i, (startBalacing exampleConfig (twoCellWorld 4100 4050)).balance.testBit i = true ↔
        (i < 6 ∧ (3 : Nat).testBit i = true ∧
          getV exampleConfig (twoCellWorld 4100 4050) i >
            getV exampleConfig (twoCellWorld 4100 4050)
              (toUInt8 (resolvedMinCell exampleConfig (twoCellWorld 4100 4050))))) :=
  ⟨(startBalacing_outcome exampleConfig (twoCellWorld 4000 4000) ⟨by decide, by decide⟩
      (by decide)).1 (by decide),
   (startBalacing_outcome exampleConfig (twoCellWorld 4100 4050) ⟨by decide, by decide⟩
      (by decide)).2 ⟨0, by decide, by decide, by decide⟩ (by decide) (by decide) (by decide)⟩

/-- Outcome of `startBalacing` where the minimum cell does not resolve
(`minCell` still negative after the resolution): with the stability
precondition satisfied, every connected cell at or above the discharge floor
and some connected cell above the baseline read through that index, `done` is
unchanged and `balance` is 0, the mask `calculateBalance` returns for an unset
minimum cell. -/
theorem startBalacing_unresolved (cfg : Config) (w : World) (hst : startStable cfg w)
    (hfloor : ∀ i, i < cfg.MAX_BANANCE_CELLS → w.connectedCells.testBit i = true →
      w.Vd_per_cell ≤ getV cfg w i)
    (hneg : resolvedMinCell cfg w < 0)
    (hex : ∃ i, i < cfg.MAX_BANANCE_CELLS ∧ w.connectedCells.testBit i = true ∧
      getV cfg w i > getV cfg w (toUInt8 (resolvedMinCell cfg w))) :
    (startBalacing cfg w).done = w.done ∧ (startBalacing cfg w).balance = 0 := by
  obtain ⟨von, voff, off, hoff, heq⟩ := startBalacing_of_stable cfg w hst
  have hloop := startBalacingLoop_no_floor cfg (getV cfg w (toUInt8 (resolvedMinCell cfg w)))
    w.Vd_per_cell (List.range cfg.MAX_BANANCE_CELLS) true
    { w with minCell := resolvedMinCell cfg w }
    (fun i hi hc => hfloor i (List.mem_range.1 hi) (by rw [← bitSet_eq_testBit]; exact hc))
  rw [← hoff] at hloop
  obtain ⟨i0, hi0, hc0, hv0⟩ := hex
  have hoff0 : off = false :=
    hloop.2 (Or.inr ⟨i0, List.mem_range.2 hi0, by rw [bitSet_eq_testBit]; exact hc0, hv0⟩)
  rw [heq, hoff0]
  simp only [Bool.false_eq_true, if_false]
  rw [setBalance_done, setBalance_balance]
  refine ⟨rfl, ?_⟩
  have hm : (afterStartLoop w (resolvedMinCell cfg w) von voff).minCell < 0 := hneg
  unfold calculateBalance
  rw [if_pos hm]

/-- C7 (evaluation at the failing input). After `powerOn` with cells 0 and 1
connected and both reading 65535, in Idle with the stability precondition
satisfied: every connected cell is at or above the discharge floor (3000) and
no connected cell exceeds the minimum voltage of the connected cells (all
read 65535), yet `startBalacing` does not end Complete: `done` stays false.
The minimum cell stays unresolved (`-1`), the baseline `getV(minCell)` is read
through index 255 (0 here), both connected cells strictly exceed that
baseline, and still `balance` is 0, not a nonzero mask. `doStrategy` returns
Running. -/
theorem startBalacing_neither_outcome :
    Reachable exampleConfig (twoCellWorld 65535 65535) ∧
    startStable exampleConfig (twoCellWorld 65535 65535) ∧
    (twoCellWorld 65535 65535).balance = 0 ∧
    (twoCellWorld 65535 65535).done = false ∧
    (twoCellWorld 65535 65535).connectedCells = 3 ∧
    (twoCellWorld 65535 65535).Vd_per_cell = 3000 ∧
    (∀ i, i < exampleConfig.MAX_BANANCE_CELLS →
      (twoCellWorld 65535 65535).connectedCells.testBit i = true →
      getV exampleConfig (twoCellWorld 65535 65535) i = 65535) ∧
    resolvedMinCell exampleConfig (twoCellWorld 65535 65535) = -1 ∧
    getV exampleConfig (twoCellWorld 65535 65535)
      (toUInt8 (resolvedMinCell exampleConfig (twoCellWorld 65535 65535))) = 0 ∧
    (startBalacing exampleConfig (twoCellWorld 65535 65535)).done = false ∧
    (startBalacing exampleConfig (twoCellWorld 65535 65535)).balance = 0 ∧
    (doStrategy exampleConfig (twoCellWorld 65535 65535)).2 = statusType.RUNNING :=
  ⟨Reachable.measure (twoCellInputs 65535 65535) _
      (Reachable.powerOn (startupWorld (twoCellInputs 65535 65535))),
    ⟨by decide, by decide⟩, by decide, by decide, by decide, by decide, by decide, by decide,
    by decide, by decide, by decide, by decide⟩

/-! ## Theorems: the strategy step -/

/-- The loop of `trySaveVon` writes `Von_` only. -/
theorem trySaveVon_loop_frame (cfg : Config) (n : Nat) (w : World) :
    ∃ von, (List.range n).foldl (trySaveVonStep cfg) w = { w with Von_ := von } := by
  induction n with
  | zero => exact ⟨w.Von_, rfl⟩
  | succ n ih =>
    obtain ⟨von, h⟩ := ih
    rw [List.range_succ, List.foldl_append, h]
    exact ⟨_, rfl⟩

/-- `trySaveVon` writes `Von_` and `savedVon` only. -/
theorem trySaveVon_frame (cfg : Config) (w : World) :
    ∃ von sv, trySaveVon cfg w = { w with Von_ := von, savedVon := sv } := by
  unfold trySaveVon
  by_cases h : w.savedVon = true
  · rw [if_pos h]
    exact ⟨w.Von_, w.savedVon, rfl⟩
  · rw [if_neg h]
    obtain ⟨von, hv⟩ := trySaveVon_loop_frame cfg cfg.MAX_BANANCE_CELLS { w with savedVon := true }
    simp only
    rw [hv]
    exact ⟨von, true, rfl⟩

theorem subU16_cast (a b : Nat) : ((subU16 a b : Nat) : Int) = ((a : Int) - (b : Int)) % 65536 := by
  unfold subU16
  omega

/-- C10. If `doStrategy` is called in the Discharging state and the elapsed
balance time exceeds `maxBalanceTime`, then afterwards `balance = 0` and
`balancingEnded` is the current full-measurement count; from then on, with the
analog inputs powered on, `isWorking` is true exactly while
`(fullMeasurementCount - balancingEnded) mod 2^16 < balancerStartStableCount/2`;
and (the window `balancerStartStableCount/2` being nonzero) that call returns
Running. -/
theorem doStrategy_timeout (cfg : Config) (w : World) (hbal : w.balance ≠ 0)
    (htime : getBalanceTime w > cfg.maxBalanceTime) :
    (doStrategy cfg w).1.balance = 0 ∧
    (doStrategy cfg w).1.balancingEnded = AnalogInputs.getFullMeasurementCount w.ai ∧
    (∀ ai : AnalogInputs.State, AnalogInputs.isPowerOn ai = true →
      (isWorking cfg { (doStrategy cfg w).1 with ai := ai } = true ↔
        ((AnalogInputs.getFullMeasurementCount ai : Int) -
            ((doStrategy cfg w).1.balancingEnded : Int)) % 65536 <
          ((cfg.balancerStartStableCount / 2 : Nat) : Int))) ∧
    (AnalogInputs.isPowerOn w.ai = true → 0 < cfg.balancerStartStableCount / 2 →
      (doStrategy cfg w).2 = statusType.RUNNING) := by
  obtain ⟨von, sv, hsave⟩ := trySaveVon_frame cfg w
  have hw1 : (doStrategy cfg w).1 = setBalance cfg (trySaveVon cfg w) 0 := by
    unfold doStrategy
    have ht : getBalanceTime (trySaveVon cfg w) > cfg.maxBalanceTime := by
      rw [hsave]
      exact htime
    simp only [hbal, if_false, ht, if_true]
    split_ifs <;> rfl
  have hbal1 : (setBalance cfg (trySaveVon cfg w) 0).balance = 0 := setBalance_balance _ _ _
  have hend : (setBalance cfg (trySaveVon cfg w) 0).balancingEnded =
      AnalogInputs.getFullMeasurementCount w.ai := by
    rw [hsave]
    unfold setBalance hardware.setBalancer
    simp only [hbal, ne_eq, not_false_eq_true, and_self, if_true]
    split_ifs <;> rfl
  have hai : (setBalance cfg (trySaveVon cfg w) 0).ai = AnalogInputs.resetStable cfg w.ai := by
    rw [hsave]
    unfold setBalance hardware.setBalancer
    simp only
    split_ifs <;> rfl
  have hworking : ∀ ai : AnalogInputs.State, AnalogInputs.isPowerOn ai = true →
      (isWorking cfg { setBalance cfg (trySaveVon cfg w) 0 with ai := ai } = true ↔
        ((AnalogInputs.getFullMeasurementCount ai : Int) -
            ((setBalance cfg (trySaveVon cfg w) 0).balancingEnded : Int)) % 65536 <
          ((cfg.balancerStartStableCount / 2 : Nat) : Int)) := by
    intro ai hon
    unfold isWorking
    simp only [hbal1, ne_eq, not_true_eq_false, if_false, hon, Bool.not_true, Bool.false_eq_true,
      decide_eq_true_eq]
    rw [← subU16_cast]
    exact Int.ofNat_lt.symm
  refine ⟨by rw [hw1]; exact hbal1, by rw [hw1]; exact hend, ?_, ?_⟩
  · rw [hw1]
    exact hworking
  · intro hon hpos
    have hwk : isWorking cfg (setBalance cfg (trySaveVon cfg w) 0) = true := by
      have h := hworking (setBalance cfg (trySaveVon cfg w) 0).ai (by rw [hai]; exact hon)
      refine h.2 ?_
      rw [hend, hai]
      have : AnalogInputs.getFullMeasurementCount (AnalogInputs.resetStable cfg w.ai) =
          AnalogInputs.getFullMeasurementCount w.ai := rfl
      rw [this]
      omega
    unfold doStrategy
    have ht : getBalanceTime (trySaveVon cfg w) > cfg.maxBalanceTime := by
      rw [hsave]
      exact htime
    simp only [hbal, if_false, ht, if_true, hwk, Bool.not_true, Bool.false_and,
      Bool.false_eq_true]

/-- Witness for C10: the two-cell balancer, discharging since clock 0, stepped
at clock 31 with `maxBalanceTime = 30`. -/
theorem doStrategy_timeout_witness :
    (doStrategy exampleConfig dischargingWorld).1.balance = 0 ∧
    (doStrategy exampleConfig dischargingWorld).1.balancingEnded = 100 ∧
    (doStrategy exampleConfig dischargingWorld).2 = statusType.RUNNING :=
  have h := doStrategy_timeout exampleConfig dischargingWorld (by decide) (by decide)
  ⟨h.1, h.2.1, h.2.2.2 (by decide) (by decide)⟩

/-! ## Theorems: the discharge mask stays inside the connected cells -/

theorem doStrategy_fst (cfg : Config) (w : World) :
    (doStrategy cfg w).1 =
      if w.balance = 0 then startBalacing cfg w
      else if getBalanceTime (trySaveVon cfg w) > cfg.maxBalanceTime then
        setBalance cfg (trySaveVon cfg w) 0
      else trySaveVon cfg w := by
  unfold doStrategy
  simp only
  split_ifs <;> rfl

theorem powerOn_balance (cfg : Config) (w : World) : (powerOn cfg w).balance = 0 := by
  unfold powerOn resetMinCell
  exact setBalance_balance cfg _ 0

/-- Every bit of the mask `calculateBalance` returns is a bit below 16 of
`connectedCells`. -/
theorem calculateBalance_subset (cfg : Config) (w : World) (i : Nat)
    (h : (calculateBalance cfg w).testBit i = true) :
    i < 16 ∧ w.connectedCells.testBit i = true := by
  obtain ⟨-, -, h2, h3, -⟩ := (calculateBalance_testBit cfg w i).1 h
  exact ⟨h2, h3⟩

/-- The invariant behind C5: every bit of `balance` is a bit below 16 of
`connectedCells`. -/
theorem reachable_balance_bits (cfg : Config) (w : World) (h : Reachable cfg w) :
    ∀ i, w.balance.testBit i = true → i < 16 ∧ w.connectedCells.testBit i = true := by
  have hzero : ∀ (n c : Nat), n = 0 → ∀ i, n.testBit i = true → i < 16 ∧ c.testBit i = true := by
    intro n c hn i hi
    rw [hn, Nat.zero_testBit] at hi
    exact absurd hi (by decide)
  induction h with
  | powerOn w0 => exact hzero _ _ (powerOn_balance cfg w0)
  | @doStrategy w0 _ ih =>
    rw [doStrategy_fst]
    by_cases hb : w0.balance = 0
    · rw [if_pos hb]
      by_cases hst : startStable cfg w0
      · obtain ⟨von, voff, off, -, heq⟩ := startBalacing_of_stable cfg w0 hst
        rw [heq]
        cases off
        · simp only [Bool.false_eq_true, if_false]
          rw [setBalance_balance, setBalance_connectedCells]
          intro i hi
          exact calculateBalance_subset cfg _ i hi
        · simp only [if_true]
          exact hzero _ _ (endBalancing_balance cfg _)
      · have hsame : startBalacing cfg w0 = w0 := by
          unfold startBalacing
          unfold startStable at hst
          by_cases h1 : isStable cfg w0 cfg.balancerStartStableCount = true
          · have h2 : AnalogInputs.isOutStable cfg w0 = false := by
              cases h : AnalogInputs.isOutStable cfg w0
              · rfl
              · exact absurd ⟨h1, h⟩ hst
            simp only [h1, h2, Bool.not_true, Bool.not_false, Bool.or_true, if_true]
          · simp only [Bool.not_eq_true] at h1
            simp only [h1, Bool.not_false, Bool.true_or, if_true]
        rw [hsame]
        exact ih
    · rw [if_neg hb]
      obtain ⟨von, sv, hsave⟩ := trySaveVon_frame cfg w0
      by_cases ht : getBalanceTime (trySaveVon cfg w0) > cfg.maxBalanceTime
      · rw [if_pos ht]
        exact hzero _ _ (setBalance_balance cfg _ 0)
      · rw [if_neg ht, hsave]
        exact ih
  | @powerOff w0 _ ih =>
    unfold powerOff hardware.setBalancerOutput
    exact hzero _ _ (endBalancing_balance cfg w0)
  | @measure w0 ai seconds _ ih => exact ih

/-- C5. In every balancer state reachable from `powerOn` by `doStrategy`,
`powerOff` and `powerOn` calls, with arbitrary measurement and clock updates
in between, the mask `balance` is a subset of `connectedCells`
(`balance & ~connectedCells = 0` in 16 bits); and in any state whatever the
value returned by `calculateBalance` is a subset of `connectedCells`. -/
theorem balance_subset_connectedCells (cfg : Config) (w : World) (h : Reachable cfg w) :
    (w.balance &&& (65535 ^^^ w.connectedCells) = 0 ∧
      ∀ i, w.balance.testBit i = true → w.connectedCells.testBit i = true) ∧
    ∀ w2 : World,
      calculateBalance cfg w2 &&& (65535 ^^^ w2.connectedCells) = 0 ∧
      ∀ i, (calculateBalance cfg w2).testBit i = true → w2.connectedCells.testBit i = true := by
  refine ⟨⟨and_not_eq_zero (reachable_balance_bits cfg w h),
    fun i hi => (reachable_balance_bits cfg w h i hi).2⟩, fun w2 => ?_⟩
  exact ⟨and_not_eq_zero (calculateBalance_subset cfg w2),
    fun i hi => (calculateBalance_subset cfg w2 i hi).2⟩

/-- Witness for C5: the two-cell balancer after `powerOn`, a measurement
update and one `doStrategy` step (balance mask 1, connected cells 3). -/
theorem balance_subset_connectedCells_witness :
    (doStrategy exampleConfig (twoCellWorld 4100 4050)).1.balance = 1 ∧
    (doStrategy exampleConfig (twoCellWorld 4100 4050)).1.connectedCells = 3 ∧
    (doStrategy exampleConfig (twoCellWorld 4100 4050)).1.balance &&&
      (65535 ^^^ (doStrategy exampleConfig (twoCellWorld 4100 4050)).1.connectedCells) = 0 :=
  ⟨by decide, by decide,
    (balance_subset_connectedCells exampleConfig (doStrategy exampleConfig (twoCellWorld 4100 4050)).1
      (Reachable.doStrategy (Reachable.measure (twoCellInputs 4100 4050) _
        (Reachable.powerOn (startupWorld (twoCellInputs 4100 4050)))))).1.1⟩

/-! ## Theorems: threshold queries -/

/-- C19. `isMaxVout maxV` is true exactly when some connected cell (index
below the cell count) has presumed voltage at or above `maxV`; `isMinVout minV`
exactly when some connected cell has presumed voltage at or below `minV`; both
are false when no cell is connected. -/
theorem isMaxVout_isMinVout_spec (cfg : Config) (w : World) (v : Nat) :
    (isMaxVout cfg w v = true ↔
      ∃ c, c < cfg.MAX_BANANCE_CELLS ∧ w.connectedCells.testBit c = true ∧
        getPresumedV cfg w c ≥ v) ∧
    (isMinVout cfg w v = true ↔
      ∃ c, c < cfg.MAX_BANANCE_CELLS ∧ w.connectedCells.testBit c = true ∧
        getPresumedV cfg w c ≤ v) ∧
    (w.connectedCells = 0 → isMaxVout cfg w v = false ∧ isMinVout cfg w v = false) := by
  have hmax : isMaxVout cfg w v = true ↔
      ∃ c, c < cfg.MAX_BANANCE_CELLS ∧ w.connectedCells.testBit c = true ∧
        getPresumedV cfg w c ≥ v := by
    unfold isMaxVout
    rw [List.any_eq_true]
    constructor
    · rintro ⟨c, hc, h⟩
      rw [Bool.and_eq_true, bitSet_eq_testBit, decide_eq_true_eq] at h
      exact ⟨c, List.mem_range.1 hc, h.1, h.2⟩
    · rintro ⟨c, hc, h1, h2⟩
      refine ⟨c, List.mem_range.2 hc, ?_⟩
      rw [Bool.and_eq_true, bitSet_eq_testBit, decide_eq_true_eq]
      exact ⟨h1, h2⟩
  have hmin : isMinVout cfg w v = true ↔
      ∃ c, c < cfg.MAX_BANANCE_CELLS ∧ w.connectedCells.testBit c = true ∧
        getPresumedV cfg w c ≤ v := by
    unfold isMinVout
    rw [List.any_eq_true]
    constructor
    · rintro ⟨c, hc, h⟩
      rw [Bool.and_eq_true, bitSet_eq_testBit, decide_eq_true_eq] at h
      exact ⟨c, List.mem_range.1 hc, h.1, h.2⟩
    · rintro ⟨c, hc, h1, h2⟩
      refine ⟨c, List.mem_range.2 hc, ?_⟩
      rw [Bool.and_eq_true, bitSet_eq_testBit, decide_eq_true_eq]
      exact ⟨h1, h2⟩
  refine ⟨hmax, hmin, fun h0 => ⟨?_, ?_⟩⟩
  · cases hb : isMaxVout cfg w v
    · rfl
    · obtain ⟨c, -, hc, -⟩ := hmax.1 hb
      rw [h0, Nat.zero_testBit] at hc
      exact absurd hc (by decide)
  · cases hb : isMinVout cfg w v
    · rfl
    · obtain ⟨c, -, hc, -⟩ := hmin.1 hb
      rw [h0, Nat.zero_testBit] at hc
      exact absurd hc (by decide)

/-- Witness for C19: the two-cell balancer at 4100 mV and 4050 mV against the
thresholds 4100 (reached by cell 0) and 4000 (no cell at or below). -/
theorem isMaxVout_isMinVout_spec_witness :
    isMaxVout exampleConfig (twoCellWorld 4100 4050) 4100 = true ∧
    isMinVout exampleConfig (twoCellWorld 4100 4050) 4000 = false ∧
    (isMaxVout exampleConfig (startupWorld startupInputs) 0 = false ∧
      isMinVout exampleConfig (startupWorld startupInputs) 0 = false) :=
  ⟨(isMaxVout_isMinVout_spec exampleConfig (twoCellWorld 4100 4050) 4100).1.2
      ⟨0, by decide, by decide, by decide⟩,
   by decide,
   (isMaxVout_isMinVout_spec exampleConfig (startupWorld startupInputs) 0).2.2 (by decide)⟩

/-! ## Theorems: the minimum cell -/

/-- State of the loop of `getCellMinV` after `n` iterations: either no
connected cell below `n` reads under `UINT16_MAX` and `(c, vmin)` is still
`(-1, UINT16_MAX)`, or `c` is the lowest-indexed connected cell of minimal
voltage among the cells below `n` and `vmin` is its voltage. -/
theorem getCellMinV_loop (cfg : Config) (w : World) (n : Nat) :
    (((List.range n).foldl (getCellMinVStep cfg w) (-1, UINT16_MAX)).1 = -1 ∧
      ((List.range n).foldl (getCellMinVStep cfg w) (-1, UINT16_MAX)).2 = 65535 ∧
      ∀ i, i < n → w.connectedCells.testBit i = true → 65535 ≤ getV cfg w i) ∨
    (∃ c : Nat,
      ((List.range n).foldl (getCellMinVStep cfg w) (-1, UINT16_MAX)).1 = (c : Int) ∧
      ((List.range n).foldl (getCellMinVStep cfg w) (-1, UINT16_MAX)).2 = getV cfg w c ∧
      c < n ∧ w.connectedCells.testBit c = true ∧ getV cfg w c < 65535 ∧
      (∀ i, i < n → w.connectedCells.testBit i = true → getV cfg w c ≤ getV cfg w i) ∧
      (∀ i, i < c → w.connectedCells.testBit i = true → getV cfg w c < getV cfg w i)) := by
  induction n with
  | zero =>
    left
    exact ⟨rfl, rfl, fun i hi => absurd hi (Nat.not_lt_zero i)⟩
  | succ n ih =>
    rw [List.range_succ, List.foldl_append]
    simp only [List.foldl_cons, List.foldl_nil]
    generalize (List.range n).foldl (getCellMinVStep cfg w) (-1, UINT16_MAX) = st at ih
    unfold getCellMinVStep
    rw [bitSet_eq_testBit]
    by_cases hc : w.connectedCells.testBit n = true
    · simp only [hc, if_true]
      by_cases hv : st.2 > getV cfg w n
      · simp only [hv, if_true]
        right
        refine ⟨n, rfl, rfl, Nat.lt_succ_self n, hc, ?_, ?_, ?_⟩
        · rcases ih with ⟨-, h2, -⟩ | ⟨c, -, h2, -, -, h5, -, -⟩
          · omega
          · omega
        · intro i hi hci
          rcases ih with ⟨-, h2, h3⟩ | ⟨c, -, h2, -, -, h5, h6, -⟩
          · by_cases hin : i = n
            · rw [hin]
            · have := h3 i (by omega) hci
              omega
          · by_cases hin : i = n
            · rw [hin]
            · have := h6 i (by omega) hci
              omega
        · intro i hi hci
          rcases ih with ⟨-, h2, h3⟩ | ⟨c, -, h2, -, -, h5, h6, -⟩
          · have := h3 i hi hci
            omega
          · have := h6 i hi hci
            omega
      · simp only [hv, if_false]
        rcases ih with ⟨h1, h2, h3⟩ | ⟨c, h1, h2, h3, h4, h5, h6, h7⟩
        · left
          refine ⟨h1, h2, fun i hi hci => ?_⟩
          by_cases hin : i = n
          · rw [hin]
            omega
          · exact h3 i (by omega) hci
        · right
          refine ⟨c, h1, h2, by omega, h4, h5, fun i hi hci => ?_, h7⟩
          by_cases hin : i = n
          · rw [hin]
            omega
          · exact h6 i (by omega) hci
    · simp only [hc, Bool.false_eq_true, if_false]
      rcases ih with ⟨h1, h2, h3⟩ | ⟨c, h1, h2, h3, h4, h5, h6, h7⟩
      · left
        refine ⟨h1, h2, fun i hi hci => ?_⟩
        by_cases hin : i = n
        · rw [hin] at hci
          exact absurd hci hc
        · exact h3 i (by omega) hci
      · right
        refine ⟨c, h1, h2, by omega, h4, h5, fun i hi hci => ?_, h7⟩
        by_cases hin : i = n
        · rw [hin] at hci
          exact absurd hci hc
        · exact h6 i (by omega) hci

/-- What `getCellMinV` returns, for at most 128 cells: when some connected
cell reads under `UINT16_MAX`, the lowest-indexed connected cell of minimal
live voltage; otherwise (no cell connected, or every connected cell reading
`UINT16_MAX`) the value 255, which the `int8_t` variable `minCell` holds as
`-1`. -/
theorem getCellMinV_result (cfg : Config) (w : World) (hmax : cfg.MAX_BANANCE_CELLS ≤ 128) :
    ((∃ i, i < cfg.MAX_BANANCE_CELLS ∧ w.connectedCells.testBit i = true ∧
        getV cfg w i < 65535) →
      getCellMinV cfg w < cfg.MAX_BANANCE_CELLS ∧
      toInt8 (getCellMinV cfg w) = (getCellMinV cfg w : Int) ∧
      w.connectedCells.testBit (getCellMinV cfg w) = true ∧
      (∀ i, i < cfg.MAX_BANANCE_CELLS → w.connectedCells.testBit i = true →
        getV cfg w (getCellMinV cfg w) ≤ getV cfg w i) ∧
      (∀ i, i < getCellMinV cfg w → w.connectedCells.testBit i = true →
        getV cfg w (getCellMinV cfg w) < getV cfg w i)) ∧
    ((∀ i, i < cfg.MAX_BANANCE_CELLS → w.connectedCells.testBit i = true →
        65535 ≤ getV cfg w i) →
      getCellMinV cfg w = 255 ∧ toInt8 (getCellMinV cfg w) = -1) := by
  have hloop := getCellMinV_loop cfg w cfg.MAX_BANANCE_CELLS
  unfold getCellMinV
  generalize (List.range cfg.MAX_BANANCE_CELLS).foldl (getCellMinVStep cfg w) (-1, UINT16_MAX) = st
    at hloop
  constructor
  · rintro ⟨i0, hi0, hc0, hv0⟩
    rcases hloop with ⟨-, -, h3⟩ | ⟨c, h1, h2, h3, h4, h5, h6, h7⟩
    · have := h3 i0 hi0 hc0
      omega
    · have hc : toUInt8 st.1 = c := by
        rw [h1]
        unfold toUInt8
        omega
      rw [hc]
      refine ⟨h3, ?_, h4, h6, h7⟩
      unfold toInt8
      split_ifs <;> omega
  · intro hall
    rcases hloop with ⟨h1, -, -⟩ | ⟨c, h1, h2, h3, h4, h5, h6, h7⟩
    · rw [h1]
      exact ⟨by decide, by decide⟩
    · have := hall c h3 h4
      omega

/-- C20 (evaluation at the failing input). With cells 0 and 1 connected and
both reading 65535, `getCellMinV` returns 255, the unset marker `-1` of
`minCell`, although two cells are connected. -/
theorem getCellMinV_all_saturated :
    (twoCellWorld 65535 65535).connectedCells = 3 ∧
    getV exampleConfig (twoCellWorld 65535 65535) 0 = 65535 ∧
    getV exampleConfig (twoCellWorld 65535 65535) 1 = 65535 ∧
    getCellMinV exampleConfig (twoCellWorld 65535 65535) = 255 ∧
    toInt8 (getCellMinV exampleConfig (twoCellWorld 65535 65535)) = -1 := by
  decide

/-! ## Theorems: completion -/

theorem startBalacing_of_not_stable (cfg : Config) (w : World) (hst : ¬ startStable cfg w) :
    startBalacing cfg w = w := by
  unfold startBalacing
  unfold startStable at hst
  by_cases h1 : isStable cfg w cfg.balancerStartStableCount = true
  · have h2 : AnalogInputs.isOutStable cfg w = false := by
      cases h : AnalogInputs.isOutStable cfg w
      · rfl
      · exact absurd ⟨h1, h⟩ hst
    simp only [h1, h2, Bool.not_true, Bool.not_false, Bool.or_true, if_true]
  · simp only [Bool.not_eq_true] at h1
    simp only [h1, Bool.not_false, Bool.true_or, if_true]

theorem setBalance_masks (cfg : Config) (w : World) (v : Nat) :
    (setBalance cfg w v).balancerMasks =
      if w.done = true then w.balancerMasks else v :: w.balancerMasks := by
  unfold setBalance hardware.setBalancer
  simp only
  by_cases hc : w.balance ≠ 0 ∧ v = 0
  · rw [if_pos hc]
    cases hd : w.done <;> simp [hd]
  · rw [if_neg hc]
    cases hd : w.done <;> simp [hd]

theorem endBalancing_done (cfg : Config) (w : World) : (endBalancing cfg w).done = true := rfl

theorem endBalancing_masks (cfg : Config) (w : World) :
    (endBalancing cfg w).balancerMasks =
      if w.done = true then w.balancerMasks else 0 :: w.balancerMasks := by
  unfold endBalancing
  exact setBalance_masks cfg w 0

/-- Effect of one strategy step on `done` and on the masks passed to the
hardware: with `done` set the step keeps it set and calls
`hardware::setBalancer` not at all; a step that sets `done` has passed mask 0
last. -/
theorem doStrategy_done_masks (cfg : Config) (w : World) :
    (w.done = true →
      (doStrategy cfg w).1.done = true ∧ (doStrategy cfg w).1.balancerMasks = w.balancerMasks) ∧
    (w.done = false → (doStrategy cfg w).1.done = true →
      (doStrategy cfg w).1.balancerMasks.head? = some 0) := by
  rw [doStrategy_fst]
  by_cases hb : w.balance = 0
  · rw [if_pos hb]
    by_cases hst : startStable cfg w
    · obtain ⟨von, voff, off, -, heq⟩ := startBalacing_of_stable cfg w hst
      rw [heq]
      have hXd : (afterStartLoop w (resolvedMinCell cfg w) von voff).done = w.done := rfl
      have hXm : (afterStartLoop w (resolvedMinCell cfg w) von voff).balancerMasks =
          w.balancerMasks := rfl
      cases off
      · simp only [Bool.false_eq_true, if_false]
        rw [setBalance_done, setBalance_masks, hXd, hXm]
        constructor
        · intro hd
          exact ⟨hd, by rw [if_pos hd]⟩
        · intro hd hd2
          rw [hd] at hd2
          exact absurd hd2 (by decide)
      · simp only [if_true]
        rw [endBalancing_masks, hXd, hXm]
        constructor
        · intro hd
          exact ⟨rfl, by rw [if_pos hd]⟩
        · intro hd _
          rw [hd]
          rfl
    · rw [startBalacing_of_not_stable cfg w hst]
      constructor
      · intro hd
        exact ⟨hd, rfl⟩
      · intro hd hd2
        rw [hd] at hd2
        exact absurd hd2 (by decide)
  · rw [if_neg hb]
    obtain ⟨von, sv, hsave⟩ := trySaveVon_frame cfg w
    by_cases ht : getBalanceTime (trySaveVon cfg w) > cfg.maxBalanceTime
    · rw [if_pos ht, setBalance_done, setBalance_masks, hsave]
      constructor
      · intro hd
        exact ⟨hd, by simp only [hd, if_true]⟩
      · intro hd hd2
        simp only at hd2
        rw [hd] at hd2
        exact absurd hd2 (by decide)
    · rw [if_neg ht, hsave]
      constructor
      · intro hd
        exact ⟨hd, rfl⟩
      · intro hd hd2
        simp only at hd2
        rw [hd] at hd2
        exact absurd hd2 (by decide)

theorem powerOn_done (cfg : Config) (w : World) : (powerOn cfg w).done = false := by
  unfold powerOn resetMinCell
  simp only
  rw [setBalance_done]

/-- C12 (as amended). In every state reachable from `powerOn` (by `doStrategy`
and `powerOff` calls, with arbitrary measurement updates in between), `done`
set implies that the mask last passed to `hardware::setBalancer` is 0; and a
`doStrategy` step taken with `done` set, in any state, keeps `done` set and
passes no mask to `hardware::setBalancer`. -/
theorem done_keeps_hardware_off (cfg : Config) (w : World) (h : Reachable cfg w) :
    (w.done = true → w.balancerMasks.head? = some 0) ∧
    ∀ w2 : World, w2.done = true →
      (doStrategy cfg w2).1.done = true ∧
      (doStrategy cfg w2).1.balancerMasks = w2.balancerMasks := by
  refine ⟨?_, fun w2 => (doStrategy_done_masks cfg w2).1⟩
  induction h with
  | powerOn w0 =>
    intro hd
    rw [powerOn_done] at hd
    exact absurd hd (by decide)
  | @doStrategy w0 _ ih =>
    intro hd
    cases hd0 : w0.done
    · exact (doStrategy_done_masks cfg w0).2 hd0 hd
    · rw [((doStrategy_done_masks cfg w0).1 hd0).2]
      exact ih hd0
  | @powerOff w0 _ ih =>
    intro _
    unfold powerOff hardware.setBalancerOutput
    simp only
    rw [endBalancing_masks]
    cases hd0 : w0.done
    · rfl
    · simp only [if_true]
      exact ih hd0
  | @measure w0 ai seconds _ ih => exact ih

/-- Witness for C12: the two-cell balancer that completed at 4000 mV / 4000 mV
and was stepped again after measuring 4050 mV / 4100 mV. -/
theorem done_keeps_hardware_off_witness :
    reopenedWorld.done = true ∧ reopenedWorld.balancerMasks.head? = some 0 :=
  ⟨by decide,
    (done_keeps_hardware_off exampleConfig reopenedWorld
      (Reachable.doStrategy (Reachable.measure (twoCellInputs 4050 4100) _
        (Reachable.doStrategy (Reachable.measure (twoCellInputs 4000 4000) _
          (Reachable.powerOn (startupWorld (twoCellInputs 4000 4000)))))))).1 (by decide)⟩

/-- C12 (counterexample). After `powerOn`, a step that completes with both
cells at 4000 mV, and a further step once the cells measure 4050 mV and
4100 mV, the state has `done` set and `balance = 2`. -/
theorem done_with_nonzero_balance :
    Reachable exampleConfig reopenedWorld ∧ reopenedWorld.done = true ∧
    reopenedWorld.balance = 2 :=
  ⟨Reachable.doStrategy (Reachable.measure (twoCellInputs 4050 4100) _
      (Reachable.doStrategy (Reachable.measure (twoCellInputs 4000 4000) _
        (Reachable.powerOn (startupWorld (twoCellInputs 4000 4000)))))),
    by decide, by decide⟩

theorem doStrategy_snd (cfg : Config) (w : World) :
    (doStrategy cfg w).2 =
      if (!isWorking cfg (doStrategy cfg w).1 && (doStrategy cfg w).1.done) = true then
        statusType.COMPLETE
      else statusType.RUNNING := by
  unfold doStrategy
  simp only
  split_ifs <;> rfl

/-- From Idle, with the minimum cell resolved and at most 16 cells, a
connected cell above the minimum cell's voltage makes the mask computed at the
end of `startBalacing` nonzero. -/
theorem calculateBalance_afterStartLoop_ne_zero (cfg : Config) (w : World)
    (von voff : Nat → Nat) (hidle : w.balance = 0) (hmin : 0 ≤ resolvedMinCell cfg w)
    (hmax : cfg.MAX_BANANCE_CELLS ≤ 16)
    (hex : ∃ i, i < cfg.MAX_BANANCE_CELLS ∧ w.connectedCells.testBit i = true ∧
      getV cfg w i > getV cfg w (toUInt8 (resolvedMinCell cfg w))) :
    calculateBalance cfg (afterStartLoop w (resolvedMinCell cfg w) von voff) ≠ 0 := by
  obtain ⟨i0, hi0, hc0, hv0⟩ := hex
  have hp : ∀ c, getPresumedV cfg (afterStartLoop w (resolvedMinCell cfg w) von voff) c =
      getV cfg w c := by
    intro c
    unfold getPresumedV afterStartLoop
    simp only [hidle, if_true]
    rfl
  have hb : (calculateBalance cfg (afterStartLoop w (resolvedMinCell cfg w) von voff)).testBit i0
      = true := by
    rw [calculateBalance_testBit, hp, hp]
    exact ⟨hmin, hi0, by omega, hc0, hv0⟩
  intro hz
  rw [hz, Nat.zero_testBit] at hb
  exact absurd hb (by decide)

/-- C11 (as amended). When `doStrategy` is called in the Idle state with the
settle window elapsed (`isWorking` false), the stability precondition
satisfied, every connected cell at or above the discharge floor, the minimum
cell resolved and at most 16 cells, it returns Complete exactly when no
connected cell reads strictly above the minimum cell; otherwise it starts a
new discharge episode and returns Running. -/
theorem doStrategy_after_settle (cfg : Config) (w : World)
    (hidle : w.balance = 0) (hsettled : isWorking cfg w = false) (hst : startStable cfg w)
    (hfloor : ∀ i, i < cfg.MAX_BANANCE_CELLS → w.connectedCells.testBit i = true →
      w.Vd_per_cell ≤ getV cfg w i)
    (hmin : 0 ≤ resolvedMinCell cfg w) (hmax : cfg.MAX_BANANCE_CELLS ≤ 16) :
    ((doStrategy cfg w).2 = statusType.COMPLETE ↔
      ∀ i, i < cfg.MAX_BANANCE_CELLS → w.connectedCells.testBit i = true →
        getV cfg w i ≤ getV cfg w (toUInt8 (resolvedMinCell cfg w))) ∧
    ((doStrategy cfg w).2 = statusType.RUNNING ↔ (doStrategy cfg w).1.balance ≠ 0) := by
  obtain ⟨von, voff, off, hoff, heq⟩ := startBalacing_of_stable cfg w hst
  have hloop := startBalacingLoop_no_floor cfg (getV cfg w (toUInt8 (resolvedMinCell cfg w)))
    w.Vd_per_cell (List.range cfg.MAX_BANANCE_CELLS) true
    { w with minCell := resolvedMinCell cfg w }
    (fun i hi hc => hfloor i (List.mem_range.1 hi) (by rw [← bitSet_eq_testBit]; exact hc))
  rw [← hoff] at hloop
  have hfst : (doStrategy cfg w).1 = startBalacing cfg w := by
    rw [doStrategy_fst, if_pos hidle]
  by_cases hex : ∃ i, i < cfg.MAX_BANANCE_CELLS ∧ w.connectedCells.testBit i = true ∧
      getV cfg w i > getV cfg w (toUInt8 (resolvedMinCell cfg w))
  · have hoff0 : off = false := by
      obtain ⟨i, hi, hc, hv⟩ := hex
      exact hloop.2 (Or.inr ⟨i, List.mem_range.2 hi, by rw [bitSet_eq_testBit]; exact hc, hv⟩)
    have hbal : (doStrategy cfg w).1.balance ≠ 0 := by
      rw [hfst, heq, hoff0]
      simp only [Bool.false_eq_true, if_false]
      rw [setBalance_balance]
      exact calculateBalance_afterStartLoop_ne_zero cfg w von voff hidle hmin hmax hex
    have hwork : isWorking cfg (doStrategy cfg w).1 = true := by
      unfold isWorking
      rw [if_pos hbal]
    have hrun : (doStrategy cfg w).2 = statusType.RUNNING := by
      rw [doStrategy_snd, hwork]
      rfl
    refine ⟨⟨fun h => ?_, fun h => ?_⟩, ⟨fun _ => hbal, fun _ => hrun⟩⟩
    · rw [hrun] at h
      exact absurd h (by decide)
    · obtain ⟨i, hi, hc, hv⟩ := hex
      have := h i hi hc
      omega
  · have hnone : ∀ i, i < cfg.MAX_BANANCE_CELLS → w.connectedCells.testBit i = true →
        getV cfg w i ≤ getV cfg w (toUInt8 (resolvedMinCell cfg w)) := by
      intro i hi hc
      by_contra hgt
      exact hex ⟨i, hi, hc, by omega⟩
    have hoff1 : off = true := by
      cases hb : off
      · rcases hloop.1 hb with h | ⟨i, hi, hc, hv⟩
        · exact absurd h (by decide)
        · exact absurd ⟨i, List.mem_range.1 hi, by rw [← bitSet_eq_testBit]; exact hc, hv⟩ hex
      · rfl
    have hstate : (doStrategy cfg w).1 =
        endBalancing cfg (afterStartLoop w (resolvedMinCell cfg w) von voff) := by
      rw [hfst, heq, hoff1]
      rfl
    have hwork : isWorking cfg (endBalancing cfg
        (afterStartLoop w (resolvedMinCell cfg w) von voff)) = isWorking cfg w := by
      have hai : (endBalancing cfg (afterStartLoop w (resolvedMinCell cfg w) von voff)).ai =
          AnalogInputs.resetStable cfg w.ai := by
        unfold endBalancing setBalance hardware.setBalancer afterStartLoop
        simp only
        split_ifs <;> rfl
      have hend : (endBalancing cfg (afterStartLoop w (resolvedMinCell cfg w) von voff)).balancingEnded
          = w.balancingEnded := by
        unfold endBalancing setBalance hardware.setBalancer afterStartLoop
        simp only [hidle, ne_eq, not_true_eq_false, false_and, if_false]
        split_ifs <;> rfl
      unfold isWorking
      rw [endBalancing_balance, hidle, hai, hend]
      rfl
    have hcomp : (doStrategy cfg w).2 = statusType.COMPLETE := by
      rw [doStrategy_snd, hstate, hwork, hsettled]
      rfl
    have hbal : (doStrategy cfg w).1.balance = 0 := by
      rw [hstate]
      exact endBalancing_balance cfg _
    refine ⟨⟨fun _ => hnone, fun _ => hcomp⟩, ⟨fun h => ?_, fun h => absurd hbal h⟩⟩
    rw [hcomp] at h
    exact absurd h (by decide)

/-- Witness for C11: the two-cell scenario after the timed-out episode and the
settle window, once both cells read 4050 mV: the step returns Complete. -/
theorem doStrategy_after_settle_witness :
    (doStrategy exampleConfig (settledWorld 4050 4050)).2 = statusType.COMPLETE :=
  (doStrategy_after_settle exampleConfig (settledWorld 4050 4050) (by decide) (by decide)
    ⟨by decide, by decide⟩ (by decide) (by decide) (by decide)).1.2 (by decide)

/-- C11 (counterexample). In the two-cell scenario, after the episode was
stopped by the maximum balance time and the settle window has elapsed
(`isWorking` false, stability satisfied), with the cells still reading 4100 mV
and 4050 mV the next `doStrategy` call returns Running, with `done` clear and
the discharge mask 1 applied again. -/
theorem doStrategy_after_settle_running :
    (settledWorld 4100 4050).balance = 0 ∧
    (settledWorld 4100 4050).balancingEnded = 100 ∧
    isWorking exampleConfig (settledWorld 4100 4050) = false ∧
    isStable exampleConfig (settledWorld 4100 4050) exampleConfig.balancerStartStableCount = true ∧
    AnalogInputs.isOutStable exampleConfig (settledWorld 4100 4050) = true ∧
    (doStrategy exampleConfig (settledWorld 4100 4050)).2 = statusType.RUNNING ∧
    (doStrategy exampleConfig (settledWorld 4100 4050)).1.done = false ∧
    (doStrategy exampleConfig (settledWorld 4100 4050)).1.balance = 1 := by
  decide

end Balancer

/-! ## Theorems: stability tracking -/

namespace AnalogInputs

theorem setReal_real_self (cfg : Config) (s : State) (name v : Nat) :
    (setReal cfg s name v).real_ name = v := by
  unfold setReal setAt
  simp

theorem setReal_real_of_ne (cfg : Config) (s : State) (name v m : Nat) (h : m ≠ name) :
    (setReal cfg s name v).real_ m = s.real_ m := by
  unfold setReal setAt
  simp only
  rw [if_neg h]
  split_ifs <;> rfl

theorem setReal_stableCount_self (cfg : Config) (s : State) (name v : Nat) :
    (setReal cfg s name v).stableCount_ name =
      if absDiff (s.real_ name) v > cfg.ANALOG_INPUTS_STABLE_VALUE_ERROR then 0
      else (s.stableCount_ name + 1) % 65536 := by
  unfold setReal setAt
  split_ifs <;> simp

theorem setReal_stableCount_of_ne (cfg : Config) (s : State) (name v m : Nat) (h : m ≠ name) :
    (setReal cfg s name v).stableCount_ m = s.stableCount_ m := by
  unfold setReal setAt
  split_ifs <;> simp [h]

/-- C13 (as amended). `setReal name v` sets the channel's real value to `v`
and its stable count to 0 if `|old - v| > ANALOG_INPUTS_STABLE_VALUE_ERROR`
and to the old stable count plus one modulo `2^16` otherwise; the real values
and stable counts of all other channels are unchanged. -/
theorem setReal_spec (cfg : Config) (s : State) (name v : Nat) :
    (setReal cfg s name v).real_ name = v ∧
    (absDiff (s.real_ name) v > cfg.ANALOG_INPUTS_STABLE_VALUE_ERROR →
      (setReal cfg s name v).stableCount_ name = 0) ∧
    (absDiff (s.real_ name) v ≤ cfg.ANALOG_INPUTS_STABLE_VALUE_ERROR →
      (setReal cfg s name v).stableCount_ name = (s.stableCount_ name + 1) % 65536) ∧
    ∀ m, m ≠ name →
      (setReal cfg s name v).real_ m = s.real_ m ∧
      (setReal cfg s name v).stableCount_ m = s.stableCount_ m := by
  refine ⟨setReal_real_self cfg s name v, ?_, ?_, fun m hm =>
    ⟨setReal_real_of_ne cfg s name v m hm, setReal_stableCount_of_ne cfg s name v m hm⟩⟩
  · intro h
    rw [setReal_stableCount_self, if_pos h]
  · intro h
    rw [setReal_stableCount_self, if_neg (by omega)]

/-- Witness for C13: cell channel 26 of the two-cell inputs (4100 mV, stable
count 10) set to 4102 (in band) and to 4200 (out of band). -/
theorem setReal_spec_witness :
    (setReal exampleConfig (twoCellInputs 4100 4050) 26 4102).stableCount_ 26 = 11 ∧
    (setReal exampleConfig (twoCellInputs 4100 4050) 26 4200).stableCount_ 26 = 0 :=
  ⟨(setReal_spec exampleConfig (twoCellInputs 4100 4050) 26 4102).2.2.1 (by decide),
   (setReal_spec exampleConfig (twoCellInputs 4100 4050) 26 4200).2.1 (by decide)⟩

/-- C13 (counterexample). An in-band update of a channel whose stable count
is 65535 leaves the stable count at 0, not at 65536. -/
theorem setReal_stableCount_wraps :
    ({ twoCellInputs 4100 4050 with stableCount_ := fun _ => 65535 } : State).stableCount_ 26
      = 65535 ∧
    absDiff (({ twoCellInputs 4100 4050 with stableCount_ := fun _ => 65535 } : State).real_ 26)
      4100 ≤ exampleConfig.ANALOG_INPUTS_STABLE_VALUE_ERROR ∧
    (setReal exampleConfig { twoCellInputs 4100 4050 with stableCount_ := fun _ => 65535 }
      26 4100).stableCount_ 26 = 0 := by
  decide

theorem setRealTimes_stableCount (cfg : Config) (name v : Nat) (n : Nat) :
    ∀ s : State, absDiff (s.real_ name) v ≤ cfg.ANALOG_INPUTS_STABLE_VALUE_ERROR →
      s.stableCount_ name + n ≤ 65535 →
      (setRealTimes cfg name v n s).stableCount_ name = s.stableCount_ name + n := by
  induction n with
  | zero =>
    intro s _ _
    rfl
  | succ n ih =>
    intro s hband hle
    unfold setRealTimes
    have h1 : (setReal cfg s name v).stableCount_ name = s.stableCount_ name + 1 := by
      rw [setReal_stableCount_self, if_neg (by omega)]
      omega
    have h2 : absDiff ((setReal cfg s name v).real_ name) v ≤
        cfg.ANALOG_INPUTS_STABLE_VALUE_ERROR := by
      rw [setReal_real_self]
      unfold absDiff
      split_ifs <;> omega
    rw [ih (setReal cfg s name v) h2 (by omega), h1]
    omega

/-- C14 (as amended). The stable count is not capped at the stability
threshold: after `n` consecutive in-band updates of a channel with the same
value it has grown by exactly `n`, as long as it stays within 16 bits; hence
`isStable` is true for every such `n` from which the count has reached
`ANALOG_INPUTS_STABLE_MIN_COUNT`. -/
theorem stableCount_grows (cfg : Config) (s : State) (name v n : Nat)
    (hband : absDiff (s.real_ name) v ≤ cfg.ANALOG_INPUTS_STABLE_VALUE_ERROR)
    (hle : s.stableCount_ name + n ≤ 65535) :
    (setRealTimes cfg name v n s).stableCount_ name = s.stableCount_ name + n ∧
    (cfg.ANALOG_INPUTS_STABLE_MIN_COUNT ≤ s.stableCount_ name + n →
      isStable cfg (setRealTimes cfg name v n s) name = true) := by
  have h := setRealTimes_stableCount cfg name v n s hband hle
  refine ⟨h, fun hmin => ?_⟩
  unfold isStable getStableCount
  rw [h]
  exact decide_eq_true hmin

/-- Witness for C14: channel 26 from stable count 0, five in-band updates,
threshold 3. -/
theorem stableCount_grows_witness :
    (setRealTimes exampleConfig 26 4100 5
      { twoCellInputs 4100 4050 with stableCount_ := fun _ => 0 }).stableCount_ 26 = 0 + 5 ∧
    isStable exampleConfig (setRealTimes exampleConfig 26 4100 5
      { twoCellInputs 4100 4050 with stableCount_ := fun _ => 0 }) 26 = true :=
  have h := stableCount_grows exampleConfig
    { twoCellInputs 4100 4050 with stableCount_ := fun _ => 0 } 26 4100 5 (by decide) (by decide)
  ⟨h.1, h.2 (by decide)⟩

/-- C14 (counterexample). With threshold 3, four in-band updates with the
same value take the stable count from 0 to 4, above the threshold; and from
65535 one more in-band update takes it to 0, where `isStable` is false. -/
theorem stableCount_exceeds_threshold :
    exampleConfig.ANALOG_INPUTS_STABLE_MIN_COUNT = 3 ∧
    (setRealTimes exampleConfig 26 4100 4
      { twoCellInputs 4100 4050 with stableCount_ := fun _ => 0 }).stableCount_ 26 = 4 ∧
    isStable exampleConfig { twoCellInputs 4100 4050 with stableCount_ := fun _ => 65535 } 26
      = true ∧
    isStable exampleConfig (setRealTimes exampleConfig 26 4100 1
      { twoCellInputs 4100 4050 with stableCount_ := fun _ => 65535 }) 26 = false := by
  decide

/-! ## Theorems: energy integration -/

/-- `setReal` writes `real_` and `stableCount_` only. -/
theorem setReal_frame (cfg : Config) (s : State) (name v : Nat) :
    ∃ r st, setReal cfg s name v = { s with real_ := r, stableCount_ := st } := by
  unfold setReal
  simp only
  split_ifs
  · exact ⟨_, _, rfl⟩
  · exact ⟨_, _, rfl⟩

theorem resetAccumulatedMeasurements_Eout (cfg : Config) (env : Env) (s : State) :
    (resetAccumulatedMeasurements cfg env s).i_Eout_ = 0 ∧
    (resetAccumulatedMeasurements cfg env s).i_Eout_dt_ = ANALOG_INPUTS_E_OUT_dt_FACTOR := by
  unfold resetAccumulatedMeasurements
  simp only
  have hstep : ∀ (t : State) (n v : Nat),
      t.i_Eout_ = 0 ∧ t.i_Eout_dt_ = ANALOG_INPUTS_E_OUT_dt_FACTOR →
      (setReal cfg t n v).i_Eout_ = 0 ∧
        (setReal cfg t n v).i_Eout_dt_ = ANALOG_INPUTS_E_OUT_dt_FACTOR := by
    intro t n v ht
    obtain ⟨r, st, h⟩ := setReal_frame cfg t n v
    rw [h]
    exact ht
  exact hstep _ _ _ (hstep _ _ _ (hstep _ _ _ (hstep _ _ _ ⟨rfl, rfl⟩)))

/-- The energy accumulator after `n` slow interrupts, started `k` interrupts
into a period of 50, with output current `I` and output voltage `V`. -/
theorem doSlowInterruptTimes_Eout (cfg : Config) (I V : Nat) (hI : I ≤ 65535) (hV : V ≤ 65535)
    (n : Nat) :
    ∀ (k : Nat) (s : State), getIout cfg s = I → getVout cfg s = V → k < 50 →
      s.i_Eout_dt_ = 50 - k → s.i_Eout_ < 4294967296 →
      (doSlowInterruptTimes cfg n s).i_Eout_ =
        (s.i_Eout_ + (k + n) / 50 * (I * V / 100)) % 4294967296 := by
  have hP : (I * V) % 4294967296 = I * V := by
    apply Nat.mod_eq_of_lt
    calc I * V ≤ 65535 * 65535 := Nat.mul_le_mul hI hV
      _ < 4294967296 := by decide
  induction n with
  | zero =>
    intro k s _ _ hk _ hE
    unfold doSlowInterruptTimes
    have : (k + 0) / 50 = 0 := by omega
    rw [this, Nat.zero_mul, Nat.add_zero, Nat.mod_eq_of_lt hE]
  | succ n ih =>
    intro k s hIs hVs hk hdt hE
    unfold doSlowInterruptTimes
    by_cases hk49 : k = 49
    · have hstep : doSlowInterrupt cfg s =
          { s with
            i_charge_ := (s.i_charge_ + getIout cfg s) % 4294967296,
            i_Eout_dt_ := 50,
            i_Eout_ := (s.i_Eout_ + I * V / 100) % 4294967296 } := by
        unfold doSlowInterrupt
        have hz : (s.i_Eout_dt_ + 255) % 256 = 0 := by omega
        simp only [hz, if_true]
        have h1 : getIout cfg { s with
            i_charge_ := (s.i_charge_ + getIout cfg s) % 4294967296,
            i_Eout_dt_ := ANALOG_INPUTS_E_OUT_dt_FACTOR } = I := hIs
        have h2 : getVout cfg { s with
            i_charge_ := (s.i_charge_ + getIout cfg s) % 4294967296,
            i_Eout_dt_ := ANALOG_INPUTS_E_OUT_dt_FACTOR } = V := hVs
        rw [h1, h2, hP]
        rfl
      obtain ⟨t, ht, htI, htV, htdt, htE⟩ : ∃ t, doSlowInterrupt cfg s = t ∧ getIout cfg t = I ∧
          getVout cfg t = V ∧ t.i_Eout_dt_ = 50 - 0 ∧
          t.i_Eout_ = (s.i_Eout_ + I * V / 100) % 4294967296 :=
        ⟨_, hstep, hIs, hVs, rfl, rfl⟩
      rw [ht, ih 0 t htI htV (by decide) htdt (by rw [htE]; exact Nat.mod_lt _ (by decide)), htE]
      have hq : (k + (n + 1)) / 50 = (0 + n) / 50 + 1 := by omega
      rw [hq, Nat.add_mul, Nat.one_mul]
      generalize (0 + n) / 50 * (I * V / 100) = X
      omega
    · have hstep : doSlowInterrupt cfg s =
          { s with
            i_charge_ := (s.i_charge_ + getIout cfg s) % 4294967296,
            i_Eout_dt_ := 50 - (k + 1) } := by
        unfold doSlowInterrupt
        have hz : (s.i_Eout_dt_ + 255) % 256 = 50 - (k + 1) := by omega
        have hnz : ¬ (50 - (k + 1) = 0) := by omega
        simp only [hz, hnz, if_false]
      obtain ⟨t, ht, htI, htV, htdt, htE⟩ : ∃ t, doSlowInterrupt cfg s = t ∧ getIout cfg t = I ∧
          getVout cfg t = V ∧ t.i_Eout_dt_ = 50 - (k + 1) ∧ t.i_Eout_ = s.i_Eout_ :=
        ⟨_, hstep, hIs, hVs, rfl, rfl⟩
      rw [ht, ih (k + 1) t htI htV (by omega) htdt (by rw [htE]; exact hE), htE]
      have hq : (k + 1 + n) = (k + (n + 1)) := by omega
      rw [hq]

/-- C17. Starting from the state left by `resetAccumulatedMeasurements`
(energy accumulator 0, down-counter 50), with the 16-bit output current `I`
and output voltage `V` unchanged, after `n` calls of `doSlowInterrupt` the
energy accumulator is `floor(n/50) * floor(I*V/100)` modulo `2^32`. -/
theorem energy_accumulator (cfg : Config) (env : Env) (s : State) (n : Nat)
    (hI : getIout cfg (resetAccumulatedMeasurements cfg env s) ≤ 65535)
    (hV : getVout cfg (resetAccumulatedMeasurements cfg env s) ≤ 65535) :
    (resetAccumulatedMeasurements cfg env s).i_Eout_ = 0 ∧
    (resetAccumulatedMeasurements cfg env s).i_Eout_dt_ = 50 ∧
    (doSlowInterruptTimes cfg n (resetAccumulatedMeasurements cfg env s)).i_Eout_ =
      (n / 50 *
        (getIout cfg (resetAccumulatedMeasurements cfg env s) *
          getVout cfg (resetAccumulatedMeasurements cfg env s) / 100)) % 4294967296 := by
  obtain ⟨h0, hdt⟩ := resetAccumulatedMeasurements_Eout cfg env s
  refine ⟨h0, hdt, ?_⟩
  rw [doSlowInterruptTimes_Eout cfg _ _ hI hV n 0 _ rfl rfl (by decide) hdt (by rw [h0]; decide),
    h0, Nat.zero_add, Nat.zero_add]

/-- Witness for C17: output current 1000 and output voltage 12000, 120 slow
interrupts: two full periods of `floor(12000000/100)` each. -/
theorem energy_accumulator_witness :
    (doSlowInterruptTimes exampleConfig 120
      (resetAccumulatedMeasurements exampleConfig exampleEnv (outputInputs 1000 12000))).i_Eout_ =
      (120 / 50 *
        (getIout exampleConfig
            (resetAccumulatedMeasurements exampleConfig exampleEnv (outputInputs 1000 12000)) *
          getVout exampleConfig
            (resetAccumulatedMeasurements exampleConfig exampleEnv (outputInputs 1000 12000)) /
          100)) % 4294967296 ∧
    (120 / 50 *
        (getIout exampleConfig
            (resetAccumulatedMeasurements exampleConfig exampleEnv (outputInputs 1000 12000)) *
          getVout exampleConfig
            (resetAccumulatedMeasurements exampleConfig exampleEnv (outputInputs 1000 12000)) /
          100)) % 4294967296 = 240000 :=
  ⟨(energy_accumulator exampleConfig exampleEnv (outputInputs 1000 12000) 120
      (by decide) (by decide)).2.2, by decide⟩

/-! ## Theorems: finalizing a measurement window -/

/-- C18. `finalizeFullMeasurement` leaves the whole engine state unchanged
while the window counter is nonzero; with the counter at zero and the
ignore-last-result flag set it changes nothing but the accumulators (sums of
the physical channels to 0, counter to the round maximum, flag cleared), so no
real value, stable count or full-measurement count changes. After
`resetMeasurement` the flag is set and the counter is 1, and the finalize that
follows the completed window is such a suppressed one that leaves the flag
cleared. -/
theorem finalizeFullMeasurement_suppressed (cfg : Config) (env : Env) (s : State) :
    (s.i_avrCount_ ≠ 0 → finalizeFullMeasurement cfg env s = some s) ∧
    (s.i_avrCount_ = 0 → s.ignoreLastResult_ = true →
      finalizeFullMeasurement cfg env s =
        some { s with
          i_avrSum_ := fun name =>
            if name < cfg.ANALOG_INPUTS_PHYSICAL_INPUTS then 0 else s.i_avrSum_ name,
          i_avrCount_ := cfg.ANALOG_INPUTS_ADC_ROUND_MAX_COUNT,
          ignoreLastResult_ := false }) ∧
    ((resetMeasurement cfg s).ignoreLastResult_ = true ∧
      (resetMeasurement cfg s).i_avrCount_ = 1 ∧
      ∃ t, finalizeFullMeasurement cfg env
          (intterruptFinalizeMeasurement (resetMeasurement cfg s)) = some t ∧
        t.ignoreLastResult_ = false ∧
        t.i_avrCount_ = cfg.ANALOG_INPUTS_ADC_ROUND_MAX_COUNT ∧
        t.real_ = s.real_ ∧ t.calculationCount_ = s.calculationCount_) := by
  refine ⟨?_, ?_, rfl, rfl, ?_⟩
  · intro h
    unfold finalizeFullMeasurement
    simp only [h, if_false]
  · intro h0 hig
    unfold finalizeFullMeasurement
    simp only [h0, hig, if_true, Bool.true_eq_false, if_false, Option.map_some']
    rfl
  · refine ⟨_resetAvr cfg (intterruptFinalizeMeasurement (resetMeasurement cfg s)),
      ?_, rfl, rfl, rfl, rfl⟩
    have h0 : (intterruptFinalizeMeasurement (resetMeasurement cfg s)).i_avrCount_ = 0 := rfl
    have hig : (intterruptFinalizeMeasurement (resetMeasurement cfg s)).ignoreLastResult_
        = true := rfl
    unfold finalizeFullMeasurement
    simp only [h0, hig, if_true, Bool.true_eq_false, if_false, Option.map_some']

set_option maxRecDepth 100000 in
/-- Witness for C18: a window with the counter at zero, once with the ignore
flag set (nothing is published, the full-measurement count stays 7) and once
with it cleared (the count becomes 8 and the output voltage is published). -/
theorem finalizeFullMeasurement_suppressed_witness :
    finalizeFullMeasurement exampleConfig exampleEnv (windowInputs 2000 500 true) =
      some { windowInputs 2000 500 true with
        i_avrSum_ := fun name =>
          if name < exampleConfig.ANALOG_INPUTS_PHYSICAL_INPUTS then 0
          else (windowInputs 2000 500 true).i_avrSum_ name,
        i_avrCount_ := exampleConfig.ANALOG_INPUTS_ADC_ROUND_MAX_COUNT,
        ignoreLastResult_ := false } ∧
    (finalizeFullMeasurement exampleConfig exampleEnv (windowInputs 2000 500 false)).map
      (fun t => t.calculationCount_) = some 8 :=
  ⟨(finalizeFullMeasurement_suppressed exampleConfig exampleEnv (windowInputs 2000 500 true)).2.1
      (by decide) (by decide),
   by decide⟩

/-! ## Theorems: virtual channels -/

theorem virtualCellStep_fold_real (cfg : Config) (m : Nat) (l : List Nat) :
    ∀ s : State, (∀ i, i ∈ l → m ≠ cfg.names.Vb1 + i) →
      (l.foldl (virtualCellStep cfg) s).real_ m = s.real_ m := by
  induction l with
  | nil =>
    intro s _
    rfl
  | cons j rest ih =>
    intro s h
    rw [List.foldl_cons, ih _ (fun i hi => h i (List.mem_cons_of_mem j hi))]
    unfold virtualCellStep
    exact setReal_real_of_ne cfg s _ _ m (h j (List.mem_cons_self j rest))

/-- The cell-channel stage of `finalizeFullVirtualMeasurement` leaves every
channel that is not a cell channel untouched. -/
theorem virtualCells_real_of_ne (cfg : Config) (hwf : NamesDistinct cfg) (s : State) (m : Nat)
    (h : ∀ i, i < cfg.MAX_BANANCE_CELLS → m ≠ cfg.names.Vb1 + i) :
    (virtualCells cfg s).real_ m = s.real_ m := by
  unfold virtualCells
  by_cases hs : cfg.ENABLE_SIMPLIFIED_VB0_VB2_CIRCUIT = true
  · obtain ⟨h2, hmax⟩ := hwf.simplified hs
    simp only [hs, if_true]
    rw [virtualCellStep_fold_real cfg m _ _ (fun i hi => by
      obtain ⟨k, hk, rfl⟩ := List.mem_range'.1 hi
      exact h _ (by omega))]
    have hm1 : m ≠ cfg.names.Vb1 := h 0 (by omega)
    have hm2 : m ≠ cfg.names.Vb2 := by
      rw [h2]
      exact h 1 (by omega)
    rw [setReal_real_of_ne cfg _ _ _ m hm2, setReal_real_of_ne cfg _ _ _ m hm1]
  · simp only [hs, Bool.false_eq_true, if_false]
    exact virtualCellStep_fold_real cfg m _ s (fun i hi => h i (List.mem_range.1 hi))

/-- The real values `finalizeFullVirtualMeasurement` leaves in the output
voltage, the cell channels and the three output-source channels, in terms of
the state `s2` it holds after the cell-channel stage. -/
theorem finalizeFullVirtualMeasurement_reals (cfg : Config) (env : Env) (s : State)
    (hwf : NamesDistinct cfg) (out0 : Nat)
    (hout : out0 = if s.real_ cfg.names.Vout_minus_pin < s.real_ cfg.names.Vout_plus_pin then
      s.real_ cfg.names.Vout_plus_pin - s.real_ cfg.names.Vout_minus_pin else 0)
    (s2 : State) (hs2 : s2 = virtualCells cfg (setReal cfg s cfg.names.Vout out0))
    (cc : Nat) (hcc : cc = getConnectedBalancePorts cfg s2)
    (balancer : Nat)
    (hbal : balancer = (List.range cfg.MAX_BANANCE_CELLS).foldl (balancerSumStep cfg s2 cc) 0) :
    (finalizeFullVirtualMeasurement cfg env s).real_ cfg.names.Vout = out0 ∧
    (∀ i, i < cfg.MAX_BANANCE_CELLS →
      (finalizeFullVirtualMeasurement cfg env s).real_ (cfg.names.Vb1 + i) =
        s2.real_ (cfg.names.Vb1 + i)) ∧
    (finalizeFullVirtualMeasurement cfg env s).real_ cfg.names.VoutBalancer =
      (if balancer = 0 ∨ absDiff out0 balancer > cfg.ANALOG_VOLT_3 then out0 else balancer) ∧
    (finalizeFullVirtualMeasurement cfg env s).real_ cfg.names.VbalanceInfo =
      (if balancer = 0 ∨ absDiff out0 balancer > cfg.ANALOG_VOLT_3 then 0 else cc) ∧
    (finalizeFullVirtualMeasurement cfg env s).real_ cfg.names.VobInfo =
      (if balancer = 0 ∨ absDiff out0 balancer > cfg.ANALOG_VOLT_3 then cfg.names.Vout
        else cfg.names.Vbalancer) := by
  have hnd := hwf.virtuals
  simp only [virtualNames, List.nodup_cons, List.mem_cons, List.mem_singleton, not_or,
    List.not_mem_nil, not_false_eq_true, List.nodup_nil, and_true] at hnd
  obtain ⟨⟨a1, a2, a3, a4, a5, a6, a7, a8⟩, ⟨b2, b3, b4, b5, b6, b7, b8⟩,
    ⟨c3, c4, c5, c6, c7, c8⟩, ⟨d4, d5, d6, d7, d8⟩, ⟨e5, e6, e7, e8⟩, ⟨f6, f7, f8⟩,
    ⟨g7, g8⟩, h8⟩ := hnd
  have hcell : ∀ n, n ∈ virtualNames cfg → ∀ i, i < cfg.MAX_BANANCE_CELLS →
      cfg.names.Vb1 + i ≠ n := fun n hn i hi => (hwf.cells n hn i hi).symm
  have hmemV : ∀ n, n ∈ virtualNames cfg ↔ (n = cfg.names.Vout ∨ n = cfg.names.Vbalancer ∨
      n = cfg.names.VoutBalancer ∨ n = cfg.names.VbalanceInfo ∨ n = cfg.names.VobInfo ∨
      n = cfg.names.Pout ∨ n = cfg.names.Iout ∨ n = cfg.names.Cout ∨ n = cfg.names.Eout) := by
    intro n
    simp only [virtualNames, List.mem_cons, List.mem_singleton, List.not_mem_nil, or_false]
  unfold finalizeFullVirtualMeasurement
  simp only [← hout, ← hs2, ← hcc, ← hbal]
  refine ⟨?_, ?_, ?_, ?_, ?_⟩
  · rw [setReal_real_of_ne _ _ _ _ _ a8, setReal_real_of_ne _ _ _ _ _ a7,
      setReal_real_of_ne _ _ _ _ _ a6, setReal_real_of_ne _ _ _ _ _ a5,
      setReal_real_of_ne _ _ _ _ _ a4, setReal_real_of_ne _ _ _ _ _ a3,
      setReal_real_of_ne _ _ _ _ _ a2, setReal_real_of_ne _ _ _ _ _ a1, hs2,
      virtualCells_real_of_ne cfg hwf _ _
        (fun i hi => hwf.cells _ ((hmemV _).2 (Or.inl rfl)) i hi),
      setReal_real_self]
  · intro i hi
    have hc := fun n hn => hcell n ((hmemV n).2 hn) i hi
    rw [setReal_real_of_ne _ _ _ _ _ (hc _ (by simp)),
      setReal_real_of_ne _ _ _ _ _ (hc _ (by simp)),
      setReal_real_of_ne _ _ _ _ _ (hc _ (by simp)),
      setReal_real_of_ne _ _ _ _ _ (hc _ (by simp)),
      setReal_real_of_ne _ _ _ _ _ (hc _ (by simp)),
      setReal_real_of_ne _ _ _ _ _ (hc _ (by simp)),
      setReal_real_of_ne _ _ _ _ _ (hc _ (by simp)),
      setReal_real_of_ne _ _ _ _ _ (hc _ (by simp))]
  · rw [setReal_real_of_ne _ _ _ _ _ c8, setReal_real_of_ne _ _ _ _ _ c7,
      setReal_real_of_ne _ _ _ _ _ c6, setReal_real_of_ne _ _ _ _ _ c5,
      setReal_real_of_ne _ _ _ _ _ c4, setReal_real_of_ne _ _ _ _ _ c3, setReal_real_self]
    by_cases hoff : balancer = 0 ∨ absDiff out0 balancer > cfg.ANALOG_VOLT_3
    · simp [hoff]
    · simp [hoff]
  · rw [setReal_real_of_ne _ _ _ _ _ d8, setReal_real_of_ne _ _ _ _ _ d7,
      setReal_real_of_ne _ _ _ _ _ d6, setReal_real_of_ne _ _ _ _ _ d5,
      setReal_real_of_ne _ _ _ _ _ d4, setReal_real_self]
    by_cases hoff : balancer = 0 ∨ absDiff out0 balancer > cfg.ANALOG_VOLT_3
    · simp [hoff]
    · simp [hoff]
  · rw [setReal_real_of_ne _ _ _ _ _ e8, setReal_real_of_ne _ _ _ _ _ e7,
      setReal_real_of_ne _ _ _ _ _ e6, setReal_real_of_ne _ _ _ _ _ e5, setReal_real_self]
    by_cases hoff : balancer = 0 ∨ absDiff out0 balancer > cfg.ANALOG_VOLT_3
    · simp [hoff]
    · simp [hoff]

/-- Under the identity calibration `(0,0)`, `(4095,4095)` every 16-bit raw
value calibrates to itself. -/
theorem calibrateValue_identity (cfg : Config) (cal : CalibrationTable) (name x : Nat)
    (hp0 : getCalibrationPoint cfg cal name 0 = ⟨0, 0⟩)
    (hp1 : getCalibrationPoint cfg cal name 1 = ⟨4095, 4095⟩) (hx : x ≤ 65535) :
    calibrateValue cfg cal name x = some x := by
  unfold calibrateValue
  by_cases hx0 : x = 0
  · simp [hx0]
  · simp only [hx0, if_false, hp0, hp1]
    have e1 : wrapInt32 (wrapInt32 ((4095 : Nat) : Int) - ((0 : Nat) : Int)) = 4095 := by
      unfold wrapInt32
      omega
    have e2 : wrapInt32 (wrapInt32 (x : Int) - ((0 : Nat) : Int)) = (x : Int) := by
      unfold wrapInt32
      omega
    rw [e1, e2]
    have e3 : wrapInt32 (4095 * (x : Int)) = (x : Int) * 4095 := by
      unfold wrapInt32
      omega
    rw [e3, Int.mul_tdiv_cancel _ (by decide : (4095 : Int) ≠ 0)]
    have e4 : wrapInt32 (x : Int) = (x : Int) := by
      unfold wrapInt32
      omega
    have e5 : wrapInt32 ((x : Int) + ((0 : Nat) : Int)) = (x : Int) := by
      unfold wrapInt32
      omega
    simp only [show ((4095 : Int) = 0) = False from by decide, if_false]
    rw [e4, e5]
    simp only [UINT16_MAX]
    refine congrArg some ?_
    split_ifs <;> omega

set_option maxRecDepth 100000 in
/-- C15. After `finalizeFullVirtualMeasurement` the Vout real value is
`max(0, real[Vout_plus_pin] - real[Vout_minus_pin])`; under the identity
calibration `(0,0)`, `(4095,4095)` `calibrateValue x = x` for every 16-bit raw
`x`; and a full window with output-plus average 2000 and output-minus average
500 under that calibration publishes `Vout = 1500`. -/
theorem output_voltage (cfg : Config) (env : Env) (s : State) (hwf : NamesDistinct cfg) :
    (((finalizeFullVirtualMeasurement cfg env s).real_ cfg.names.Vout : Nat) : Int) =
      max 0 ((s.real_ cfg.names.Vout_plus_pin : Int) - (s.real_ cfg.names.Vout_minus_pin : Int)) ∧
    (∀ (cal : CalibrationTable) (name x : Nat),
      getCalibrationPoint cfg cal name 0 = ⟨0, 0⟩ →
      getCalibrationPoint cfg cal name 1 = ⟨4095, 4095⟩ → x ≤ 65535 →
      calibrateValue cfg cal name x = some x) ∧
    (finalizeFullMeasurement exampleConfig exampleEnv (windowInputs 2000 500 false)).map
      (fun t => t.real_ exampleConfig.names.Vout) = some 1500 := by
  refine ⟨?_, fun cal name x h0 h1 hx => calibrateValue_identity cfg cal name x h0 h1 hx,
    by decide⟩
  rw [(finalizeFullVirtualMeasurement_reals cfg env s hwf _ rfl _ rfl _ rfl _ rfl).1]
  split_ifs <;> omega

theorem exampleConfig_namesDistinct : NamesDistinct exampleConfig :=
  ⟨by decide, by decide, by decide⟩

set_option maxRecDepth 100000 in
/-- Witness for C15: output-plus 2000 and output-minus 500 in the real value
table give `Vout = 1500`, and raw 2000 calibrates to 2000. -/
theorem output_voltage_witness :
    (((finalizeFullVirtualMeasurement exampleConfig exampleEnv
        { startupInputs with real_ := fun n => if n = 0 then 2000 else if n = 1 then 500 else 0 }
      ).real_ exampleConfig.names.Vout : Nat) : Int) = max 0 ((2000 : Int) - 500) ∧
    calibrateValue exampleConfig exampleEnv.cal 0 2000 = some 2000 :=
  have h := output_voltage exampleConfig exampleEnv
    { startupInputs with real_ := fun n => if n = 0 then 2000 else if n = 1 then 500 else 0 }
    exampleConfig_namesDistinct
  ⟨h.1, h.2.1 exampleEnv.cal 0 2000 (by decide) (by decide) (by decide)⟩

end AnalogInputs

namespace Balancer

/-! ## Theorems: capturing Von -/

/-- The loop of `trySaveVon` after `n` iterations has stored the live voltage
of every cell below `n` in `Von_` and touched nothing else. -/
theorem trySaveVon_loop_Von (cfg : Config) (n : Nat) (w : World) :
    (List.range n).foldl (trySaveVonStep cfg) w =
      { w with Von_ := fun c => if c < n then getV cfg w c else w.Von_ c } := by
  induction n with
  | zero => simp
  | succ n ih =>
    rw [List.range_succ, List.foldl_append, ih]
    simp only [List.foldl_cons, List.foldl_nil]
    unfold trySaveVonStep setAt
    have hv : getV cfg { w with Von_ := fun c => if c < n then getV cfg w c else w.Von_ c } n =
        getV cfg w n := rfl
    rw [hv]
    have hf : (fun j => if j = n then getV cfg w n
          else if j < n then getV cfg w j else w.Von_ j) =
        (fun c => if c < n + 1 then getV cfg w c else w.Von_ c) := by
      funext j
      by_cases h1 : j = n
      · subst h1
        simp
      · by_cases h2 : j < n
        · have h3 : j < n + 1 := by omega
          simp [h1, h2, h3]
        · have h3 : ¬ j < n + 1 := by omega
          simp [h1, h2, h3]
    simp only [hf]

/-- `trySaveVon` with Von not yet saved: the flag is set and `Von_` holds the
live voltage of every cell below the cell count. -/
theorem trySaveVon_of_not_saved (cfg : Config) (w : World) (hnot : w.savedVon = false) :
    trySaveVon cfg w =
      { w with
        savedVon := true,
        Von_ := fun c => if c < cfg.MAX_BANANCE_CELLS then getV cfg w c else w.Von_ c } := by
  unfold trySaveVon
  rw [hnot]
  simp only [Bool.false_eq_true, if_false]
  rw [trySaveVon_loop_Von]
  rfl

/-- C23. In a Discharging state (`balance ≠ 0`) with Von not yet saved, for
every cell `c` below the cell count `getPresumedV c` is `Voff[c]` both before
and after `trySaveVon` (the 16-bit `live + Voff[c] - Von[c]` with
`Von[c] = live`, `Voff[c]` being a 16-bit value); the call sets `savedVon` and stores the live voltages in
`Von`; and a second `trySaveVon` call in the episode, whatever the
measurements and the clock have become, returns the state unchanged. -/
theorem trySaveVon_keeps_presumedV (cfg : Config) (w : World)
    (hdis : w.balance ≠ 0) (hnot : w.savedVon = false)
    (h16 : ∀ c, c < cfg.MAX_BANANCE_CELLS → w.Voff_ c ≤ 65535) :
    (∀ c, c < cfg.MAX_BANANCE_CELLS →
      getPresumedV cfg w c = w.Voff_ c ∧
      getPresumedV cfg (trySaveVon cfg w) c = getPresumedV cfg w c) ∧
    (trySaveVon cfg w).savedVon = true ∧
    (∀ c, c < cfg.MAX_BANANCE_CELLS → (trySaveVon cfg w).Von_ c = getV cfg w c) ∧
    (∀ (ai : AnalogInputs.State) (seconds : Nat),
      trySaveVon cfg { trySaveVon cfg w with ai := ai, secondsU16 := seconds } =
        { trySaveVon cfg w with ai := ai, secondsU16 := seconds }) := by
  have hsave := trySaveVon_of_not_saved cfg w hnot
  have hbefore : ∀ c, getPresumedV cfg w c = w.Voff_ c := by
    intro c
    unfold getPresumedV
    rw [if_neg hdis, hnot]
    rfl
  refine ⟨?_, ?_, ?_, ?_⟩
  · intro c hc
    refine ⟨hbefore c, ?_⟩
    rw [hbefore c, hsave]
    unfold getPresumedV
    simp only [if_neg hdis, if_true, if_pos hc]
    have hv : getV cfg { w with
        savedVon := true,
        Von_ := fun c => if c < cfg.MAX_BANANCE_CELLS then getV cfg w c else w.Von_ c } c =
        getV cfg w c := rfl
    rw [hv]
    have h := h16 c hc
    unfold subU16 addU16
    omega
  · rw [hsave]
  · intro c hc
    rw [hsave]
    simp only [if_pos hc]
  · intro ai seconds
    rw [hsave]
    unfold trySaveVon
    simp only [if_true]

/-- Witness for C23: the two-cell balancer discharging cell 0, which reads
4080 mV under load with `Voff = 4100`; its presumed voltage is 4100 before
and after the capture, and `Von` becomes 4080. -/
theorem trySaveVon_keeps_presumedV_witness :
    (∀ c, c < 6 →
      getPresumedV exampleConfig loadedWorld c = loadedWorld.Voff_ c ∧
      getPresumedV exampleConfig (trySaveVon exampleConfig loadedWorld) c =
        getPresumedV exampleConfig loadedWorld c) ∧
    getV exampleConfig loadedWorld 0 = 4080 ∧
    (trySaveVon exampleConfig loadedWorld).Von_ 0 = 4080 ∧
    getPresumedV exampleConfig (trySaveVon exampleConfig loadedWorld) 0 = 4100 :=
  ⟨(trySaveVon_keeps_presumedV exampleConfig loadedWorld (by decide) (by decide)
      (by decide)).1,
    by decide, by decide, by decide⟩

/-! ## Theorems: the minimum cell index -/

theorem setBalance_minCell (cfg : Config) (w : World) (v : Nat) :
    (setBalance cfg w v).minCell = w.minCell := by
  unfold setBalance hardware.setBalancer
  simp only
  split_ifs <;> rfl

theorem powerOn_minCell (cfg : Config) (w : World) : (powerOn cfg w).minCell = -1 := by
  unfold powerOn resetMinCell
  rfl

/-- The bit of the minimum cell is clear in the mask `calculateBalance`
returns: the comparison with the baseline is strict. -/
theorem calculateBalance_minCell_bit (cfg : Config) (w : World) (h : 0 ≤ w.minCell) :
    (calculateBalance cfg w).testBit w.minCell.toNat = false := by
  cases hb : (calculateBalance cfg w).testBit w.minCell.toNat
  · rfl
  · exfalso
    obtain ⟨-, -, h16, -, hgt⟩ := (calculateBalance_testBit cfg w _).1 hb
    have hu : toUInt8 w.minCell = w.minCell.toNat := by
      unfold toUInt8
      omega
    rw [hu] at hgt
    exact absurd hgt (lt_irrefl _)

/-- The resolution at the head of `startBalacing`, for at most 128 cells, from
a state whose minimum cell is unset or a connected cell: the resolved index
is again a connected cell below the cell count, unless the minimum cell was
unset and no connected cell reads under `UINT16_MAX`, when it stays
negative. -/
theorem resolvedMinCell_valid (cfg : Config) (w : World) (hmax : cfg.MAX_BANANCE_CELLS ≤ 128)
    (hinv : w.minCell < 0 ∨ ∃ m : Nat, w.minCell = (m : Int) ∧ m < cfg.MAX_BANANCE_CELLS ∧
      w.connectedCells.testBit m = true) :
    (resolvedMinCell cfg w = -1 ∧ w.minCell < 0 ∧
      ∀ i, i < cfg.MAX_BANANCE_CELLS → w.connectedCells.testBit i = true →
        65535 ≤ getV cfg w i) ∨
    ∃ m : Nat, resolvedMinCell cfg w = (m : Int) ∧ m < cfg.MAX_BANANCE_CELLS ∧
      w.connectedCells.testBit m = true := by
  unfold resolvedMinCell
  by_cases hneg : w.minCell < 0
  · rw [if_pos hneg]
    by_cases hex : ∃ i, i < cfg.MAX_BANANCE_CELLS ∧ w.connectedCells.testBit i = true ∧
        getV cfg w i < 65535
    · obtain ⟨h1, h2, h3, -, -⟩ := (getCellMinV_result cfg w hmax).1 hex
      exact Or.inr ⟨getCellMinV cfg w, h2, h1, h3⟩
    · have hall : ∀ i, i < cfg.MAX_BANANCE_CELLS → w.connectedCells.testBit i = true →
          65535 ≤ getV cfg w i := by
        intro i hi hc
        by_contra hlt
        exact hex ⟨i, hi, hc, by omega⟩
      exact Or.inl ⟨((getCellMinV_result cfg w hmax).2 hall).2, hneg, hall⟩
  · rw [if_neg hneg]
    rcases hinv with h | h
    · exact absurd h hneg
    · exact Or.inr h

/-- What `startBalacing` leaves behind once the stability precondition holds:
`minCell` is the resolved index, `connectedCells` is unchanged, the only mask
it may pass to `hardware::setBalancer` is the new `balance`, and `balance` is
0 or the value of `calculateBalance` in a state with that `minCell` and those
`connectedCells`. -/
theorem startBalacing_stable_mask (cfg : Config) (w : World) (hst : startStable cfg w) :
    (startBalacing cfg w).minCell = resolvedMinCell cfg w ∧
    (startBalacing cfg w).connectedCells = w.connectedCells ∧
    ((startBalacing cfg w).balancerMasks = w.balancerMasks ∨
      (startBalacing cfg w).balancerMasks = (startBalacing cfg w).balance :: w.balancerMasks) ∧
    ((startBalacing cfg w).balance = 0 ∨
      ∃ a : World, a.minCell = resolvedMinCell cfg w ∧ a.connectedCells = w.connectedCells ∧
        (startBalacing cfg w).balance = calculateBalance cfg a) := by
  obtain ⟨von, voff, off, -, heq⟩ := startBalacing_of_stable cfg w hst
  rw [heq]
  cases off
  · simp only [Bool.false_eq_true, if_false]
    rw [setBalance_minCell, setBalance_connectedCells, setBalance_masks, setBalance_balance]
    refine ⟨rfl, rfl, ?_,
      Or.inr ⟨afterStartLoop w (resolvedMinCell cfg w) von voff, rfl, rfl, rfl⟩⟩
    by_cases hd : (afterStartLoop w (resolvedMinCell cfg w) von voff).done = true
    · rw [if_pos hd]
      exact Or.inl rfl
    · rw [if_neg hd]
      exact Or.inr rfl
  · simp only [if_true]
    rw [endBalancing_connectedCells, endBalancing_masks, endBalancing_balance]
    refine ⟨?_, rfl, ?_, Or.inl rfl⟩
    · unfold endBalancing
      exact setBalance_minCell cfg _ 0
    · by_cases hd : (afterStartLoop w (resolvedMinCell cfg w) von voff).done = true
      · rw [if_pos hd]
        exact Or.inl rfl
      · rw [if_neg hd]
        exact Or.inr rfl

/-- In every reachable state, for at most 128 cells, the minimum cell is
unset (negative) or the index of a connected cell below the cell count. -/
theorem reachable_minCell (cfg : Config) (hmax : cfg.MAX_BANANCE_CELLS ≤ 128) (w : World)
    (h : Reachable cfg w) :
    w.minCell < 0 ∨ ∃ m : Nat, w.minCell = (m : Int) ∧ m < cfg.MAX_BANANCE_CELLS ∧
      w.connectedCells.testBit m = true := by
  induction h with
  | powerOn w0 =>
    left
    rw [powerOn_minCell]
    decide
  | @doStrategy w0 _ ih =>
    rw [doStrategy_fst]
    by_cases hb : w0.balance = 0
    · rw [if_pos hb]
      by_cases hst : startStable cfg w0
      · obtain ⟨h1, h2, -, -⟩ := startBalacing_stable_mask cfg w0 hst
        rw [h1, h2]
        rcases resolvedMinCell_valid cfg w0 hmax ih with ⟨hr, -, -⟩ | hr
        · left
          rw [hr]
          decide
        · exact Or.inr hr
      · rw [startBalacing_of_not_stable cfg w0 hst]
        exact ih
    · rw [if_neg hb]
      obtain ⟨von, sv, hsave⟩ := trySaveVon_frame cfg w0
      by_cases ht : getBalanceTime (trySaveVon cfg w0) > cfg.maxBalanceTime
      · rw [if_pos ht, setBalance_minCell, setBalance_connectedCells, hsave]
        exact ih
      · rw [if_neg ht, hsave]
        exact ih
  | @powerOff w0 _ ih =>
    unfold powerOff hardware.setBalancerOutput endBalancing
    simp only
    rw [setBalance_minCell, setBalance_connectedCells]
    exact ih
  | @measure w0 ai seconds _ ih => exact ih

/-- C22. For every balancer state with `minCell ≥ 0`, bit `minCell` of the
mask `calculateBalance` returns is 0. Consequently, when `startBalacing` runs
with the stability precondition satisfied in a reachable state (at most 128
cells): the only mask it may pass to `hardware::setBalancer` is the new
`balance`; a resolved minimum cell is a connected cell whose bit in that mask
is 0; and if any cell is connected, some connected cell has its bit 0 in that
mask. -/
theorem minCell_not_discharged (cfg : Config) (w : World) :
    (0 ≤ w.minCell → (calculateBalance cfg w).testBit w.minCell.toNat = false) ∧
    (Reachable cfg w → cfg.MAX_BANANCE_CELLS ≤ 128 → startStable cfg w →
      ((startBalacing cfg w).balancerMasks = w.balancerMasks ∨
        (startBalacing cfg w).balancerMasks =
          (startBalacing cfg w).balance :: w.balancerMasks) ∧
      (0 ≤ (startBalacing cfg w).minCell →
        w.connectedCells.testBit (startBalacing cfg w).minCell.toNat = true ∧
        (startBalacing cfg w).balance.testBit (startBalacing cfg w).minCell.toNat = false) ∧
      (w.connectedCells ≠ 0 →
        ∃ i, w.connectedCells.testBit i = true ∧
          (startBalacing cfg w).balance.testBit i = false)) := by
  refine ⟨calculateBalance_minCell_bit cfg w, ?_⟩
  intro hr hmax hst
  obtain ⟨h1, -, h3, h4⟩ := startBalacing_stable_mask cfg w hst
  have hres := resolvedMinCell_valid cfg w hmax (reachable_minCell cfg hmax w hr)
  have hbit : ∀ m : Nat, resolvedMinCell cfg w = (m : Int) →
      (startBalacing cfg w).balance.testBit m = false := by
    intro m hm
    rcases h4 with h0 | ⟨a, ha1, -, ha3⟩
    · rw [h0]
      exact Nat.zero_testBit m
    · rw [ha3]
      have ha0 : 0 ≤ a.minCell := by
        rw [ha1, hm]
        exact Int.ofNat_nonneg m
      have hclear := calculateBalance_minCell_bit cfg a ha0
      rw [ha1, hm, Int.toNat_ofNat] at hclear
      exact hclear
  refine ⟨h3, ?_, ?_⟩
  · intro h0
    rw [h1] at h0 ⊢
    rcases hres with ⟨hm1, -, -⟩ | ⟨m, hm, -, hc⟩
    · rw [hm1] at h0
      exact absurd h0 (by decide)
    · rw [hm, Int.toNat_ofNat]
      exact ⟨hc, hbit m hm⟩
  · intro hne
    rcases hres with ⟨hm1, -, -⟩ | ⟨m, hm, -, hc⟩
    · obtain ⟨i, hi⟩ := Nat.ne_zero_implies_bit_true hne
      refine ⟨i, hi, ?_⟩
      rcases h4 with h0 | ⟨a, ha1, -, ha3⟩
      · rw [h0]
        exact Nat.zero_testBit i
      · have hneg : a.minCell < 0 := by
          rw [ha1, hm1]
          decide
        rw [ha3]
        unfold calculateBalance
        rw [if_pos hneg]
        exact Nat.zero_testBit i
    · exact ⟨m, hc, hbit m hm⟩

/-- Witness for C22: the two-cell balancer at 4100 mV / 4050 mV, where
`startBalacing` resolves cell 1 and applies mask 1. -/
theorem minCell_not_discharged_witness :
    (startBalacing exampleConfig (twoCellWorld 4100 4050)).minCell = 1 ∧
    (startBalacing exampleConfig (twoCellWorld 4100 4050)).balance = 1 ∧
    (startBalacing exampleConfig (twoCellWorld 4100 4050)).balancerMasks.head? = some 1 ∧
    ∃ i, (twoCellWorld 4100 4050).connectedCells.testBit i = true ∧
      (startBalacing exampleConfig (twoCellWorld 4100 4050)).balance.testBit i = false :=
  ⟨by decide, by decide, by decide,
    ((minCell_not_discharged exampleConfig (twoCellWorld 4100 4050)).2
      (Reachable.measure (twoCellInputs 4100 4050) _
        (Reachable.powerOn (startupWorld (twoCellInputs 4100 4050))))
      (by decide) ⟨by decide, by decide⟩).2.2 (by decide)⟩

/-- Where the index `startBalacing` reads its baseline with is valid: in a
reachable state (at most 128 cells, the cell channels lying inside the
real-value table) whose minimum cell is already resolved or in which some
connected cell reads under `UINT16_MAX`, the index is a connected cell below
the cell count and the read is inside `real_`. -/
theorem startBalacing_read_in_bounds (cfg : Config) (w : World) (hr : Reachable cfg w)
    (hmax : cfg.MAX_BANANCE_CELLS ≤ 128)
    (hlayout : cfg.names.Vb1 + cfg.MAX_BANANCE_CELLS ≤ cfg.ANALOG_INPUTS_ALL_INPUTS)
    (hcell : 0 ≤ w.minCell ∨ ∃ i, i < cfg.MAX_BANANCE_CELLS ∧
      w.connectedCells.testBit i = true ∧ getV cfg w i < 65535) :
    toUInt8 (resolvedMinCell cfg w) < cfg.MAX_BANANCE_CELLS ∧
    w.connectedCells.testBit (toUInt8 (resolvedMinCell cfg w)) = true ∧
    AnalogInputs.realInBounds cfg (getVName cfg (toUInt8 (resolvedMinCell cfg w))) = true := by
  rcases resolvedMinCell_valid cfg w hmax (reachable_minCell cfg hmax w hr) with
    ⟨-, hneg, hall⟩ | ⟨m, hm, hlt, hc⟩
  · exfalso
    rcases hcell with h | ⟨i, hi, hci, hvi⟩
    · omega
    · have := hall i hi hci
      omega
  · have hu : toUInt8 (resolvedMinCell cfg w) = m := by
      rw [hm]
      unfold toUInt8
      omega
    rw [hu]
    refine ⟨hlt, hc, ?_⟩
    unfold AnalogInputs.realInBounds getVName
    exact decide_eq_true (by omega)

/-- C21 (evaluation at the failing inputs). After `powerOn` with no cell
connected, and after `powerOn` with two connected cells that both read 65535,
the stability precondition of `startBalacing` passes, the minimum cell
resolves to `-1`, and `getV(minCell)` receives 255 as its `uint8_t` argument:
not a cell index below `MAX_BANANCE_CELLS`, not a bit of `connectedCells`, and
channel `Vb1 + 255`, outside `real_[ANALOG_INPUTS_ALL_INPUTS]`. -/
theorem startBalacing_minCell_out_of_bounds :
    (Reachable exampleConfig (twoCellWorld 0 0) ∧ startStable exampleConfig (twoCellWorld 0 0) ∧
      (twoCellWorld 0 0).connectedCells = 0 ∧
      resolvedMinCell exampleConfig (twoCellWorld 0 0) = -1 ∧
      (startBalacing exampleConfig (twoCellWorld 0 0)).minCell = -1 ∧
      toUInt8 (resolvedMinCell exampleConfig (twoCellWorld 0 0)) = 255) ∧
    (Reachable exampleConfig (twoCellWorld 65535 65535) ∧
      startStable exampleConfig (twoCellWorld 65535 65535) ∧
      (twoCellWorld 65535 65535).connectedCells = 3 ∧
      resolvedMinCell exampleConfig (twoCellWorld 65535 65535) = -1 ∧
      (startBalacing exampleConfig (twoCellWorld 65535 65535)).minCell = -1 ∧
      toUInt8 (resolvedMinCell exampleConfig (twoCellWorld 65535 65535)) = 255) ∧
    ¬ 255 < exampleConfig.MAX_BANANCE_CELLS ∧
    (3 : Nat).testBit 255 = false ∧
    getVName exampleConfig 255 = 281 ∧
    exampleConfig.ANALOG_INPUTS_ALL_INPUTS = 38 ∧
    AnalogInputs.realInBounds exampleConfig (getVName exampleConfig 255) = false ∧
    ∀ (w : World) (cell : Nat),
      getV exampleConfig w cell = AnalogInputs.getRealValue w.ai (getVName exampleConfig cell) :=
  ⟨⟨Reachable.measure (twoCellInputs 0 0) _ (Reachable.powerOn (startupWorld (twoCellInputs 0 0))),
      ⟨by decide, by decide⟩, by decide, by decide, by decide, by decide⟩,
    ⟨Reachable.measure (twoCellInputs 65535 65535) _
        (Reachable.powerOn (startupWorld (twoCellInputs 65535 65535))),
      ⟨by decide, by decide⟩, by decide, by decide, by decide, by decide⟩,
    by decide, by decide, by decide, by decide, by decide, fun _ _ => rfl⟩

end Balancer

end Cheali
